import Mathlib

/-!
Verification development for the Market_Maker_Strategies backtester.

The Python sources under `src/` are shallowly embedded here:
pure methods become Lean functions over `ℚ` (Python floats are modelled by
exact rationals), mutating methods become functions returning the updated
value, and code paths that raise (`ValueError`, `TypeError` on `None`
arithmetic, `IndexError`, failed `assert`) return `none`.
`random.random() < 0.5` in `OrderManager.check_order_fills` is modelled by an
explicit boolean argument (the per-bar coin flip).
-/

namespace MMS

/-! ## Order model (src/orders.py) -/

/-- OrderSide enum from src/orders.py. -/
inductive OrderSide where
  | BUY
  | SELL
deriving DecidableEq

/-- OrderStatus enum from src/orders.py. -/
inductive OrderStatus where
  | PENDING
  | FILLED
  | CANCELLED
deriving DecidableEq

/-- OrderType enum from src/orders.py. -/
inductive OrderType where
  | LIMIT
  | MARKET
deriving DecidableEq

/-- Order value object.  The Python code has two dataclasses `LimitOrder` and
`MarketOrder` with the same fields (both carry a `price`); they are merged into
one structure distinguished by `order_type`.  Python dataclass equality is
field-wise within one class and always false across the two classes; here it is
field-wise equality, and orders built as market orders carry
`order_type = MARKET` so they never equal a limit order. -/
structure Order where
  symbol : String
  timestamp : ℤ
  side : OrderSide
  price : ℚ
  quantity : ℚ
  status : OrderStatus := OrderStatus.PENDING
  filled_price : Option ℚ := none
  filled_timestamp : Option ℤ := none
  reason : String := ""
  order_type : OrderType := OrderType.LIMIT
deriving DecidableEq

/-- LimitOrder.check_fill from src/orders.py: returns the fill decision and the
updated order (the Python method mutates `status`, `filled_price`,
`filled_timestamp` in place). -/
def Order.check_fill (o : Order) (high low : ℚ) (current_timestamp : ℤ) (ticksize : ℚ) :
    Bool × Order :=
  if o.status ≠ OrderStatus.PENDING then
    (false, o)
  else if o.side = OrderSide.BUY ∧ low ≤ o.price - ticksize then
    (true, { o with status := OrderStatus.FILLED, filled_price := some o.price,
                    filled_timestamp := some current_timestamp })
  else if o.side = OrderSide.SELL ∧ high ≥ o.price + ticksize then
    (true, { o with status := OrderStatus.FILLED, filled_price := some o.price,
                    filled_timestamp := some current_timestamp })
  else
    (false, o)

/-! ## Position ledger (src/position.py) -/

/-- Position dataclass from src/position.py.  `previous_entry_price = none`
models Python `None`. -/
structure Position where
  total_realized_pnl : ℚ := 0
  total_fee_paid : ℚ := 0
  unrealized_pnl : ℚ := 0
  previous_entry_price : Option ℚ := none
  current_quantity : ℚ := 0
  last_close_price : Option ℚ := none
deriving DecidableEq

/-- Position.execute_position_change from src/position.py.  Returns
`(realized_pnl, fee_paid, updated position)`; `none` models a raised exception
(the final `ValueError` branch, or the `TypeError` Python would raise when a
branch reads `previous_entry_price` while it is `None`). -/
def Position.execute_position_change (pos : Position) (execution_price old_position_size
    updated_position_size trade_size fee_rate : ℚ) : Option (ℚ × ℚ × Position) :=
  let trade_value := |trade_size * execution_price|
  let fee_paid := trade_value * fee_rate
  -- CASE 1: Flat → Long
  if old_position_size = 0 ∧ updated_position_size > 0 then
    some (0, fee_paid, { pos with previous_entry_price := some execution_price,
                                  current_quantity := updated_position_size })
  -- CASE 2: Flat → Short
  else if old_position_size = 0 ∧ updated_position_size < 0 then
    some (0, fee_paid, { pos with previous_entry_price := some execution_price,
                                  current_quantity := updated_position_size })
  -- CASE 3: Long → More Long
  else if old_position_size > 0 ∧ updated_position_size > old_position_size then
    match pos.previous_entry_price with
    | none => none
    | some entry =>
      some (0, fee_paid,
        { pos with
            previous_entry_price :=
              some ((entry * old_position_size + execution_price * trade_size) /
                updated_position_size),
            current_quantity := updated_position_size })
  -- CASE 4: Long → Less Long or Flat
  else if old_position_size > 0 ∧ updated_position_size < old_position_size ∧
      updated_position_size ≥ 0 then
    match pos.previous_entry_price with
    | none => none
    | some entry =>
      some (|trade_size| * (execution_price - entry), fee_paid,
        { pos with
            previous_entry_price :=
              if updated_position_size = 0 then none else pos.previous_entry_price,
            current_quantity := updated_position_size })
  -- CASE 5: Long → Short (flip)
  else if old_position_size > 0 ∧ updated_position_size < 0 then
    match pos.previous_entry_price with
    | none => none
    | some entry =>
      some (old_position_size * (execution_price - entry), fee_paid,
        { pos with previous_entry_price := some execution_price,
                   current_quantity := updated_position_size })
  -- CASE 6: Short → More Short
  else if old_position_size < 0 ∧ updated_position_size < old_position_size then
    match pos.previous_entry_price with
    | none => none
    | some entry =>
      some (0, fee_paid,
        { pos with
            previous_entry_price :=
              some ((entry * |old_position_size| + execution_price * |trade_size|) /
                |updated_position_size|),
            current_quantity := updated_position_size })
  -- CASE 7: Short → Less Short or Flat
  else if old_position_size < 0 ∧ updated_position_size > old_position_size ∧
      updated_position_size ≤ 0 then
    match pos.previous_entry_price with
    | none => none
    | some entry =>
      some (|trade_size| * (entry - execution_price), fee_paid,
        { pos with
            previous_entry_price :=
              if updated_position_size = 0 then none else pos.previous_entry_price,
            current_quantity := updated_position_size })
  -- CASE 8: Short → Long (flip)
  else if old_position_size < 0 ∧ updated_position_size > 0 then
    match pos.previous_entry_price with
    | none => none
    | some entry =>
      some (|old_position_size| * (entry - execution_price), fee_paid,
        { pos with previous_entry_price := some execution_price,
                   current_quantity := updated_position_size })
  -- raise ValueError("Unhandled position change case.")
  else
    none

/-- Position.update_unrealized_pnl from src/position.py.  Returns the new
unrealized PnL and the updated position; `none` models the `TypeError` Python
would raise when the position has a nonzero quantity but no entry price. -/
def Position.update_unrealized_pnl (pos : Position) (price : ℚ) : Option (ℚ × Position) :=
  if pos.current_quantity = 0 then
    some (0, { pos with unrealized_pnl := 0 })
  else if pos.current_quantity > 0 then
    match pos.previous_entry_price with
    | none => none
    | some entry =>
      let u := pos.current_quantity * (price - entry)
      some (u, { pos with unrealized_pnl := u })
  else
    match pos.previous_entry_price with
    | none => none
    | some entry =>
      let u := |pos.current_quantity| * (entry - price)
      some (u, { pos with unrealized_pnl := u })

/-! ## Risk strategy (src/risk_management_strategies/) -/

/-- DefaultRiskParameters dataclass from
src/risk_management_strategies/default_parameters.py. -/
structure DefaultRiskParameters where
  max_leverage : ℚ := 1
  min_order_value_usd : ℚ := 10
  aggressivity : ℚ := 33 / 100
  emergency_exit_leverage : ℚ := 2
  early_stopping_margin : ℚ := 1 / 10
  cancel_orders_every_timestamp : Bool := true
  max_order_age : Option ℤ := none

/-- RiskMetrics dataclass from
src/risk_management_strategies/base_risk_strategy.py (per symbol). -/
structure RiskMetrics where
  current_leverage : ℚ
  current_margin : ℚ
  position_value : ℚ
deriving DecidableEq

/-- BasicRiskStrategy.validate_single_order from
src/risk_management_strategies/basic_risk_strategy.py. -/
def BasicRiskStrategy.validate_single_order (params : DefaultRiskParameters) (order : Order)
    (current_price : ℚ) (risk_metrics : RiskMetrics) (n_symbols : ℕ) : Bool :=
  let order_value := order.quantity * current_price
  if order_value < params.min_order_value_usd then
    false
  else
    let new_position_value :=
      if order.side = OrderSide.BUY then risk_metrics.position_value + order_value
      else risk_metrics.position_value - order_value
    let allowed_margin_per_symbol := risk_metrics.current_margin
    let new_leverage := |new_position_value| / allowed_margin_per_symbol
    let max_leverage_per_symbol := params.max_leverage / n_symbols
    if new_leverage > max_leverage_per_symbol then false else true

/-- Result of BasicRiskStrategy.check_emergency_exit: the Python function
returns a dict holding one flag per symbol plus a `'Total'` flag. -/
structure EmergencyExits where
  total : Bool
  per_symbol : List (String × Bool)
deriving DecidableEq

/-- BasicRiskStrategy.check_emergency_exit from
src/risk_management_strategies/basic_risk_strategy.py.  `risk_metrics` is the
dict symbol → RiskMetrics as an ordered association list. -/
def BasicRiskStrategy.check_emergency_exit (params : DefaultRiskParameters)
    (risk_metrics : List (String × RiskMetrics)) (n_symbols : ℕ) : EmergencyExits :=
  let emergency_leverage_per_symbol := params.emergency_exit_leverage / n_symbols
  let per_symbol := risk_metrics.map fun p =>
    (p.1, decide (|p.2.current_leverage| ≥ emergency_leverage_per_symbol))
  let total_leverage := (risk_metrics.map fun p => p.2.current_leverage).sum
  { total := decide (|total_leverage| ≥ params.max_leverage), per_symbol := per_symbol }

/-- BasicRiskStrategy.continue_simulation from
src/risk_management_strategies/basic_risk_strategy.py. -/
def BasicRiskStrategy.continue_simulation (params : DefaultRiskParameters)
    (risk_metrics : List (String × RiskMetrics)) (initial_margin : ℚ) : Bool :=
  let total_margin := (risk_metrics.map fun p => p.2.current_margin).sum
  if total_margin / initial_margin ≤ params.early_stopping_margin then false else true

/-- BaseRiskStrategy.should_cancel_orders from
src/risk_management_strategies/base_risk_strategy.py. -/
def BaseRiskStrategy.should_cancel_orders (params : DefaultRiskParameters)
    (timestamp order_timestamp : ℤ) : Bool :=
  if params.cancel_orders_every_timestamp then true
  else
    match params.max_order_age with
    | some age => decide (timestamp - order_timestamp ≥ age)
    | none => false

/-! ## Order manager (src/order_manager.py) -/

/-- OrderLevel dataclass from src/trading_strategies/base_strategy.py. -/
structure OrderLevel where
  price : ℚ
  size : ℚ

/-- StrategyOutput dataclass from src/trading_strategies/base_strategy.py. -/
structure StrategyOutput where
  reservation_price : ℚ
  buy_levels : List OrderLevel
  sell_levels : List OrderLevel
  spread : ℚ := 0

/-- OrderManager state from src/order_manager.py.  The Python dicts
`positions` and `active_orders` are modelled as total maps; a key absent from
the Python dict maps to the default (`Position()` after `initialize_position`,
and the empty order list, matching `active_orders.get(symbol, [])`). -/
structure OrderManager where
  positions : String → Position
  wallet_balance : ℚ
  maker_fee : ℚ
  taker_fee : ℚ
  active_orders : String → List Order
  order_history : List Order

/-- Pointwise update of a symbol-keyed map. -/
def updMap {α : Type} (f : String → α) (sym : String) (v : α) : String → α :=
  fun s => if s = sym then v else f s

/-- OrderManager.cancel_old_orders from src/order_manager.py: drops every
active order the risk strategy wants cancelled (the dropped orders get status
CANCELLED in Python, but they leave the active set either way). -/
def OrderManager.cancel_old_orders (om : OrderManager) (params : DefaultRiskParameters)
    (timestamp : ℤ) : OrderManager :=
  { om with active_orders := fun s =>
      (om.active_orders s).filter fun o =>
        ! BaseRiskStrategy.should_cancel_orders params timestamp o.timestamp }

/-- OrderManager.get_remaining_capacity from src/order_manager.py. -/
def OrderManager.get_remaining_capacity (om : OrderManager) (symbol : String)
    (side : OrderSide) (max_position : ℚ) : ℚ :=
  let active := om.active_orders symbol
  let long_quantity := ((active.filter fun o =>
    decide (o.side = OrderSide.BUY ∧ o.status = OrderStatus.PENDING)).map Order.quantity).sum
  let short_quantity := ((active.filter fun o =>
    decide (o.side = OrderSide.SELL ∧ o.status = OrderStatus.PENDING)).map Order.quantity).sum
  let current_position := (om.positions symbol).current_quantity
  if side = OrderSide.BUY then max_position - current_position - long_quantity
  else max_position + current_position - short_quantity

/-- The candidate-building loop of OrderManager.generate_limit_orders: walk the
quote levels, emitting an order for each level while the running remaining
capacity is positive, decrementing it by the level size. -/
def buildLevelOrders (timestamp : ℤ) (symbol : String) (side : OrderSide)
    (levels : List OrderLevel) (capacity : ℚ) : List Order :=
  (levels.foldl (fun acc level =>
    if acc.2 > 0 then
      (acc.1 ++ [{ symbol := symbol, timestamp := timestamp, side := side,
                   price := level.price, quantity := level.size : Order }],
       acc.2 - level.size)
    else acc) (([], capacity) : List Order × ℚ)).1

/-- OrderManager.generate_limit_orders from src/order_manager.py, with
BasicRiskStrategy as the risk strategy.  Returns the accepted orders and the
updated manager.  The `current_position` argument is kept because the Python
signature has it, although the body never reads it (capacity is computed from
`self.positions`). -/
def OrderManager.generate_limit_orders (om : OrderManager) (timestamp : ℤ) (symbol : String)
    (strategy_output : StrategyOutput) (current_position max_position : ℚ)
    (risk_metrics : RiskMetrics) (n_symbols : ℕ) (params : DefaultRiskParameters) :
    List Order × OrderManager :=
  let _ := current_position
  let remaining_long_capacity := om.get_remaining_capacity symbol OrderSide.BUY max_position
  let remaining_short_capacity := om.get_remaining_capacity symbol OrderSide.SELL max_position
  let potential_orders :=
    buildLevelOrders timestamp symbol OrderSide.BUY strategy_output.buy_levels
      remaining_long_capacity ++
    buildLevelOrders timestamp symbol OrderSide.SELL strategy_output.sell_levels
      remaining_short_capacity
  let orders := potential_orders.filter fun o =>
    BasicRiskStrategy.validate_single_order params o strategy_output.reservation_price
      risk_metrics n_symbols
  (orders,
   { om with
       active_orders := updMap om.active_orders symbol (om.active_orders symbol ++ orders),
       order_history := om.order_history ++ orders })

/-- OrderManager.create_market_close_order from src/order_manager.py. -/
def OrderManager.create_market_close_order (timestamp : ℤ) (symbol : String)
    (position_size close_price : ℚ) (reason : String) : Option Order :=
  if |position_size| > 0 then
    some { symbol := symbol, timestamp := timestamp,
           side := if position_size > 0 then OrderSide.SELL else OrderSide.BUY,
           price := close_price, quantity := |position_size|, reason := reason,
           order_type := OrderType.MARKET }
  else none

/-- The inline fill test applied by OrderManager.check_order_fills to one
active order: the order is collected into `long_orders` / `short_orders`
(side and PENDING status) and then compared against the bar range. -/
def omFillTest (o : Order) (high low ticksize : ℚ) : Bool :=
  decide ((o.side = OrderSide.BUY ∧ o.status = OrderStatus.PENDING ∧
            low ≤ o.price - ticksize) ∨
          (o.side = OrderSide.SELL ∧ o.status = OrderStatus.PENDING ∧
            high ≥ o.price + ticksize))

/-- OrderManager.check_order_fills from src/order_manager.py.
`execute_longs_first` is the outcome of the Python `random.random() < 0.5`
coin flip.  Returns the filled orders (in resolution order) and the updated
manager; the in-place status mutation of the Python order objects is modelled
by rewriting the symbol's active list (the same orders are marked FILLED under
either coin outcome, only the returned sequence differs). -/
def OrderManager.check_order_fills (om : OrderManager) (symbol : String)
    (high low ticksize : ℚ) (execute_longs_first : Bool) : List Order × OrderManager :=
  let active := om.active_orders symbol
  let long_orders := active.filter fun o =>
    decide (o.side = OrderSide.BUY ∧ o.status = OrderStatus.PENDING)
  let short_orders := active.filter fun o =>
    decide (o.side = OrderSide.SELL ∧ o.status = OrderStatus.PENDING)
  let long_filled := (long_orders.filter fun o => decide (low ≤ o.price - ticksize)).map
    fun o => { o with status := OrderStatus.FILLED }
  let short_filled := (short_orders.filter fun o => decide (high ≥ o.price + ticksize)).map
    fun o => { o with status := OrderStatus.FILLED }
  let filled_orders :=
    if execute_longs_first then long_filled ++ short_filled
    else short_filled ++ long_filled
  let new_active := active.map fun o =>
    if omFillTest o high low ticksize then { o with status := OrderStatus.FILLED } else o
  (filled_orders, { om with active_orders := updMap om.active_orders symbol new_active })

/-- OrderManager.execute_order from src/order_manager.py.  Returns the updated
manager and the net PnL credited to the wallet; `none` propagates an exception
raised by `execute_position_change`. -/
def OrderManager.execute_order (om : OrderManager) (order : Order) :
    Option (OrderManager × ℚ) :=
  let symbol := order.symbol
  let position := om.positions symbol
  let old_position_size := position.current_quantity
  let trade_size := if order.side = OrderSide.BUY then order.quantity else -order.quantity
  let updated_position_size := old_position_size + trade_size
  let fee_rate := if order.order_type = OrderType.LIMIT then om.maker_fee else om.taker_fee
  match position.execute_position_change order.price old_position_size
      updated_position_size trade_size fee_rate with
  | none => none
  | some (realized_pnl, fee_paid, position') =>
    let net_pnl := realized_pnl - fee_paid
    let position'' := { position' with
        total_realized_pnl := position'.total_realized_pnl + realized_pnl,
        total_fee_paid := position'.total_fee_paid + fee_paid }
    some ({ om with
        wallet_balance := om.wallet_balance + net_pnl,
        positions := updMap om.positions symbol position'',
        active_orders := updMap om.active_orders symbol
          ((om.active_orders symbol).filter fun o => decide (o ≠ order)) },
      net_pnl)

/-! ## Simulation engine (src/market_maker.py)

The engine is embedded with its external collaborators as parameters: each
symbol's trading strategy is a function (`StrategySpec`), the per-symbol
ticksize lookup (`constants.SYMBOL_CONFIGS`) is a function, and the stream of
`random.random() < 0.5` outcomes inside `check_order_fills` is a function of
the call index.  Logging calls are side-effect-free and omitted. -/

/-- StrategyInput dataclass from src/trading_strategies/base_strategy.py.
`ohlc_history` and `volume_history` are always `None` at the engine's call
site (src/market_maker.py passes `local_past_ohlc = None`) and are omitted. -/
structure StrategyInput where
  timestamp : ℕ
  current_price : ℚ
  current_inventory : ℚ
  current_upnl : ℚ
  max_inventory : ℚ
  agressivity : ℚ
  minimal_spread : ℚ
  indicators : List (String × ℚ)

/-- One external trading strategy: its `minimal_spread` parameter and its
`calculate_order_levels(ticksize, strategy_input)` method. -/
structure StrategySpec where
  minimal_spread : ℚ
  calculate_order_levels : ℚ → StrategyInput → StrategyOutput

/-- Constructor arguments of MarketMakerSimulation plus the external
collaborators of the run. -/
structure SimConfig where
  params : DefaultRiskParameters
  strategies : List (String × StrategySpec)
  ticksize_of : String → ℚ
  initial_cash : ℚ := 100000
  maker_fee : ℚ := 2 / 10000
  taker_fee : ℚ := 5 / 10000
  min_start : ℕ := 0
  coin_flips : ℕ → Bool

/-- The per-symbol market data handed to run_simulation, indexed by the
integer position of the timestamp. -/
structure SimInputs where
  timestamps : List ℤ
  prices : String → ℕ → ℚ
  highs : String → ℕ → ℚ
  lows : String → ℕ → ℚ
  closes : String → ℕ → ℚ
  indicators : String → ℕ → List (String × ℚ)

/-- Mutable state of MarketMakerSimulation (src/market_maker.py).  Histories
keyed by symbol are total maps defaulting to the empty list. -/
structure MarketMakerSimulation where
  symbols : List String
  n_symbols : ℕ
  wallet_balance : ℚ
  min_start : ℕ
  order_manager : OrderManager
  wallet_balance_history : List ℚ
  margin_history : List ℚ
  leverage_history : String → List ℚ
  global_leverage_history : List ℚ
  reservation_price_history : String → List ℚ
  price_history : String → List ℚ
  realized_pnl_history : String → List ℚ
  spread_history : String → List ℚ
  current_risk_metrics : List (String × RiskMetrics)

/-- Sentinel standing for Python `float('inf')` in the leverage helpers.  It
is produced only while the per-symbol (resp. total) margin is non-positive, a
state in which the engine stops before any code reads the value; it is chosen
larger than any quantity arising in this development. -/
def floatInf : ℚ := 10 ^ 100

/-- Append one value to the history list of one symbol. -/
def appendHist (f : String → List ℚ) (sym : String) (v : ℚ) : String → List ℚ :=
  updMap f sym (f sym ++ [v])

/-- Append, for every symbol, a symbol-dependent value to its history list. -/
def appendEach (f : String → List ℚ) (symbols : List String) (valueOf : String → ℚ) :
    String → List ℚ :=
  symbols.foldl (fun acc sym => appendHist acc sym (valueOf sym)) f

/-- Apply a list transformation to every symbol's history list. -/
def extendEach (f : String → List ℚ) (symbols : List String) (g : List ℚ → List ℚ) :
    String → List ℚ :=
  symbols.foldl (fun acc sym => updMap acc sym (g (acc sym))) f

/-- MarketMakerSimulation._get_position_value. -/
def getPositionValue (om : OrderManager) (symbol : String) (price : ℚ) : ℚ :=
  (om.positions symbol).current_quantity * price

/-- MarketMakerSimulation._get_total_position_value. -/
def getTotalPositionValue (om : OrderManager) (symbols : List String)
    (opening_prices : String → ℚ) : ℚ :=
  (symbols.map fun sym => getPositionValue om sym (opening_prices sym)).sum

/-- MarketMakerSimulation._get_per_symbol_leverage. -/
def getPerSymbolLeverage (per_symbol_margin position_value : ℚ) : ℚ :=
  if per_symbol_margin > 0 then position_value / per_symbol_margin else floatInf

/-- MarketMakerSimulation._get_total_leverage. -/
def getTotalLeverage (om : OrderManager) (symbols : List String)
    (opening_prices : String → ℚ) (margin : ℚ) : ℚ :=
  if margin > 0 then getTotalPositionValue om symbols opening_prices / margin else floatInf

/-- MarketMakerSimulation._calculate_risk_metrics. -/
def calculateRiskMetrics (om : OrderManager) (symbols : List String)
    (per_symbol_margin : ℚ) (opening_prices : String → ℚ) : List (String × RiskMetrics) :=
  symbols.map fun sym =>
    let position_value := getPositionValue om sym (opening_prices sym)
    (sym, { current_leverage := getPerSymbolLeverage per_symbol_margin position_value,
            current_margin := per_symbol_margin,
            position_value := position_value })

/-- MarketMakerSimulation._extend_histories_with_zeros: pads leverage,
reservation-price, price, realized-PnL, wallet and margin histories out to the
number of timestamps (realized PnL with its last value, the rest with zeros).
Exactly as in the source, `spread_history` and `global_leverage_history` are
left untouched, and `price_history` (already pre-filled with the whole price
series at run start) is extended further. -/
def extendHistoriesWithZeros (st : MarketMakerSimulation) (t N : ℕ) :
    MarketMakerSimulation :=
  let remaining := N - t
  { st with
      leverage_history :=
        extendEach st.leverage_history st.symbols (fun l => l ++ List.replicate remaining 0),
      reservation_price_history :=
        extendEach st.reservation_price_history st.symbols
          (fun l => l ++ List.replicate remaining 0),
      price_history :=
        extendEach st.price_history st.symbols (fun l => l ++ List.replicate remaining 0),
      realized_pnl_history :=
        extendEach st.realized_pnl_history st.symbols
          (fun l => l ++ List.replicate remaining (l.getLast?.getD 0)),
      wallet_balance_history := st.wallet_balance_history ++ List.replicate remaining 0,
      margin_history := st.margin_history ++ List.replicate remaining 0 }

/-- MarketMakerSimulation._check_margin_conditions. -/
def checkMarginConditions (params : DefaultRiskParameters) (st : MarketMakerSimulation)
    (margin : ℚ) : Bool :=
  let initial_margin :=
    match st.margin_history with
    | [] => st.wallet_balance
    | m :: _ => m
  if ! BasicRiskStrategy.continue_simulation params st.current_risk_metrics initial_margin then
    false
  else if margin ≤ 0 then
    false
  else
    true

/-- The force-close block repeated verbatim in both branches of
MarketMakerSimulation._process_emergency_exits: if the symbol's position is
open, build a market close order and execute it (the `none` arm models the
crash Python would hit executing a `None` order; it is unreachable because the
surrounding guard implies `create_market_close_order` returns an order). -/
def closePositionIfOpen (om : OrderManager) (sym : String) (t : ℤ) (price : ℚ)
    (reason : String) : Option OrderManager :=
  let position := om.positions sym
  if |position.current_quantity| > 0 then
    match OrderManager.create_market_close_order t sym position.current_quantity
        price reason with
    | some order => (om.execute_order order).map Prod.fst
    | none => none
  else some om

/-- MarketMakerSimulation._process_emergency_exits.  In the `'Total'` branch
every position is force-closed; otherwise only the flagged symbols are.
(In Python the non-total loop runs over the flag dict, whose `'Total'` key
carries `False` in that branch and is therefore skipped.) -/
def processEmergencyExits (om : OrderManager) (symbols : List String) (t : ℤ)
    (exits : EmergencyExits) (opening_prices : String → ℚ) : Option OrderManager :=
  if exits.total then
    symbols.foldl (fun acc sym => acc.bind fun om' =>
      closePositionIfOpen om' sym t (opening_prices sym)
        "Emergency exit - Risk limit exceeded") (some om)
  else
    exits.per_symbol.foldl (fun acc p => acc.bind fun om' =>
      if p.2 then
        closePositionIfOpen om' p.1 t (opening_prices p.1)
          "Emergency exit - Risk limit exceeded"
      else some om') (some om)

/-- The mark-to-market loop shared by _update_end_of_timestamp and
_close_simulation_positions: update every position's unrealized PnL at the
given price and accumulate the total. -/
def markToMarket (om : OrderManager) (symbols : List String) (price_of : String → ℚ) :
    Option (OrderManager × ℚ) :=
  symbols.foldl (fun acc sym => acc.bind fun p =>
    match (p.1.positions sym).update_unrealized_pnl (price_of sym) with
    | none => none
    | some (u, pos') =>
      some ({ p.1 with positions := updMap p.1.positions sym pos' }, p.2 + u)) (some (om, 0))

/-- MarketMakerSimulation._update_end_of_timestamp.  `margin_loop` and
`per_symbol_margin` are the values of `self.margin` / `self.per_symbol_margin`
fixed at the top of the current loop iteration (the global-leverage append and
the risk-metrics recomputation use those, not the just-computed margin). -/
def updateEndOfTimestamp (st : MarketMakerSimulation) (t : ℕ)
    (closes : String → ℕ → ℚ) (margin_loop per_symbol_margin : ℚ) :
    Option MarketMakerSimulation :=
  let realized := appendEach st.realized_pnl_history st.symbols
    (fun sym => (st.order_manager.positions sym).total_realized_pnl)
  match markToMarket st.order_manager st.symbols (fun sym => closes sym t) with
  | none => none
  | some (om', total_upnl) =>
    let wallet := om'.wallet_balance
    let margin := wallet + total_upnl
    let closing_prices := fun sym => closes sym t
    let metrics := calculateRiskMetrics om' st.symbols per_symbol_margin closing_prices
    some { st with
        order_manager := om',
        wallet_balance := wallet,
        realized_pnl_history := realized,
        wallet_balance_history := st.wallet_balance_history ++ [wallet],
        margin_history := st.margin_history ++ [margin],
        current_risk_metrics := metrics,
        leverage_history :=
          metrics.foldl (fun acc p => appendHist acc p.1 p.2.current_leverage)
            st.leverage_history,
        global_leverage_history :=
          st.global_leverage_history ++
            [getTotalLeverage om' st.symbols closing_prices margin_loop] }

/-- MarketMakerSimulation._close_simulation_positions.  The failed
`assert total_upnl == 0` is modelled by returning `none`. -/
def closeSimulationPositions (st : MarketMakerSimulation) (t : ℕ)
    (timestamps : List ℤ) (prices : String → ℕ → ℚ) : Option MarketMakerSimulation :=
  let closed := st.symbols.foldl (fun acc sym => acc.bind fun om' =>
    let position := om'.positions sym
    if |position.current_quantity| > 0 then
      match OrderManager.create_market_close_order (timestamps.getD t 0) sym
          position.current_quantity (prices sym t) "End of simulation" with
      | some order => (om'.execute_order order).map Prod.fst
      | none => some om'
    else some om') (some st.order_manager)
  match closed with
  | none => none
  | some om1 =>
    let wallet := om1.wallet_balance
    let realized := appendEach st.realized_pnl_history st.symbols
      (fun sym => (om1.positions sym).total_realized_pnl)
    match markToMarket om1 st.symbols (fun sym => prices sym t) with
    | none => none
    | some (om2, total_upnl) =>
      if total_upnl = 0 then
        let margin := wallet + total_upnl
        some { st with
            order_manager := om2,
            wallet_balance := wallet,
            realized_pnl_history := realized,
            wallet_balance_history := st.wallet_balance_history ++ [wallet],
            margin_history := st.margin_history ++ [margin],
            leverage_history := appendEach st.leverage_history st.symbols (fun _ => 0),
            global_leverage_history := st.global_leverage_history ++ [0] }
      else none

/-- MarketMakerSimulation._process_one_symbol together with
_get_new_order_list: mark the symbol's position to market at the open, ask the
strategy for quote levels, record reservation price and spread, and hand the
levels to the order manager. -/
def processOneSymbol (cfg : SimConfig) (inp : SimInputs) (st : MarketMakerSimulation)
    (t : ℕ) (per_symbol_margin : ℚ) (sym : String) (strat : StrategySpec) :
    Option (List Order × MarketMakerSimulation) :=
  let open_price := inp.prices sym t
  match st.current_risk_metrics.lookup sym with
  | none => none
  | some risk_metric =>
    let position := st.order_manager.positions sym
    let current_quantity := position.current_quantity
    match position.update_unrealized_pnl open_price with
    | none => none
    | some (upnl, pos') =>
      let om := { st.order_manager with
        positions := updMap st.order_manager.positions sym pos' }
      let max_inventory := cfg.params.max_leverage * per_symbol_margin / open_price
      let strategy_input : StrategyInput :=
        { timestamp := t, current_price := open_price,
          current_inventory := current_quantity,
          current_upnl := upnl / per_symbol_margin,
          max_inventory := max_inventory,
          agressivity := cfg.params.aggressivity,
          minimal_spread := strat.minimal_spread,
          indicators := inp.indicators sym t }
      let strategy_output := strat.calculate_order_levels (cfg.ticksize_of sym) strategy_input
      let (new_orders, om2) := om.generate_limit_orders t sym strategy_output
        current_quantity max_inventory risk_metric cfg.strategies.length cfg.params
      some (new_orders,
        { st with
            order_manager := om2,
            reservation_price_history :=
              appendHist st.reservation_price_history sym strategy_output.reservation_price,
            spread_history := appendHist st.spread_history sym strategy_output.spread })

/-- The per-symbol strategy loop of run_simulation (collects new orders). -/
def runSymbols (cfg : SimConfig) (inp : SimInputs) (t : ℕ) (per_symbol_margin : ℚ) :
    List (String × StrategySpec) → MarketMakerSimulation →
    Option (List Order × MarketMakerSimulation)
  | [], st => some ([], st)
  | (sym, strat) :: rest, st =>
    match processOneSymbol cfg inp st t per_symbol_margin sym strat with
    | none => none
    | some (orders, st') =>
      (runSymbols cfg inp t per_symbol_margin rest st').map fun r => (orders ++ r.1, r.2)

/-- The fill-checking loop of run_simulation: one check_order_fills call per
symbol, consuming one coin flip each. -/
def runFills (cfg : SimConfig) (inp : SimInputs) (t : ℕ) :
    List (String × StrategySpec) → OrderManager → ℕ → List Order × OrderManager × ℕ
  | [], om, coin_idx => ([], om, coin_idx)
  | (sym, _) :: rest, om, coin_idx =>
    let (filled, om') := om.check_order_fills sym (inp.highs sym t) (inp.lows sym t)
      (cfg.ticksize_of sym) (cfg.coin_flips coin_idx)
    let (fs, om'', coin_idx') := runFills cfg inp t rest om' (coin_idx + 1)
    (filled ++ fs, om'', coin_idx')

/-- The body of `for t in range(len(timestamps))` in
MarketMakerSimulation.run_simulation, as a fuel recursion (`fuel` is the number
of loop iterations still allowed, initially `len(timestamps)`; a `break`
returns the state). -/
def runLoop (cfg : SimConfig) (inp : SimInputs) :
    ℕ → ℕ → ℕ → MarketMakerSimulation → Option MarketMakerSimulation
  | 0, _, _, st => some st
  | fuel + 1, t, coin_idx, st =>
    let N := inp.timestamps.length
    let margin := st.margin_history.getLast?.getD st.wallet_balance
    let per_symbol_margin := margin / st.n_symbols
    let opening_prices := fun sym => inp.prices sym t
    let st := { st with
      current_risk_metrics :=
        calculateRiskMetrics st.order_manager st.symbols per_symbol_margin opening_prices }
    if ! checkMarginConditions cfg.params st margin then
      -- margin stop: pad histories and break
      some (extendHistoriesWithZeros st t N)
    else if t = N - 1 then
      -- last timestamp: close everything at the open, then break
      match st.margin_history.getLast? with
      | none => none
      | some m =>
        if m > 0 then
          match closeSimulationPositions st t inp.timestamps inp.prices with
          | none => none
          | some st' =>
            some { st' with
                reservation_price_history :=
                  appendEach st'.reservation_price_history st'.symbols opening_prices,
                spread_history := appendEach st'.spread_history st'.symbols (fun _ => 0) }
        else some st
    else if t < st.min_start then
      -- warm-up: no quoting, reservation price := open, spread := 0
      let st := { st with
        reservation_price_history :=
          appendEach st.reservation_price_history st.symbols opening_prices,
        spread_history := appendEach st.spread_history st.symbols (fun _ => 0) }
      match updateEndOfTimestamp st t inp.closes margin per_symbol_margin with
      | none => none
      | some st' => runLoop cfg inp fuel (t + 1) coin_idx st'
    else
      -- active trading
      let exits := BasicRiskStrategy.check_emergency_exit cfg.params
        st.current_risk_metrics st.n_symbols
      match processEmergencyExits st.order_manager st.symbols t exits opening_prices with
      | none => none
      | some om1 =>
        let st := { st with order_manager := om1.cancel_old_orders cfg.params t }
        match runSymbols cfg inp t per_symbol_margin cfg.strategies st with
        | none => none
        | some (_all_new_orders, st) =>
          let (filled_orders, om2, coin_idx') :=
            runFills cfg inp t cfg.strategies st.order_manager coin_idx
          let executed := filled_orders.foldl
            (fun acc order => acc.bind fun om => (om.execute_order order).map Prod.fst)
            (some om2)
          match executed with
          | none => none
          | some om3 =>
            let st := { st with order_manager := om3 }
            match updateEndOfTimestamp st t inp.closes margin per_symbol_margin with
            | none => none
            | some st' => runLoop cfg inp fuel (t + 1) coin_idx' st'

/-- The result dict returned by MarketMakerSimulation.run_simulation. -/
structure SimResult where
  wallet_balance : ℚ
  positions : String → Position
  order_history : List Order
  wallet_balance_history : List ℚ
  margin_history : List ℚ
  leverage_history : String → List ℚ
  global_leverage_history : List ℚ
  reservation_price_history : String → List ℚ
  price_history : String → List ℚ
  realized_pnl_history : String → List ℚ
  spread_history : String → List ℚ

/-- MarketMakerSimulation.__init__ followed by run_simulation.  `none` models
an uncaught Python exception during the run. -/
def runSimulation (cfg : SimConfig) (inp : SimInputs) : Option SimResult :=
  let N := inp.timestamps.length
  let symbols := cfg.strategies.map Prod.fst
  let om0 : OrderManager :=
    { positions := fun _ => {}, wallet_balance := cfg.initial_cash,
      maker_fee := cfg.maker_fee, taker_fee := cfg.taker_fee,
      active_orders := fun _ => [], order_history := [] }
  let st0 : MarketMakerSimulation :=
    { symbols := symbols, n_symbols := symbols.length,
      wallet_balance := cfg.initial_cash, min_start := cfg.min_start,
      order_manager := om0,
      wallet_balance_history := [], margin_history := [],
      leverage_history := fun _ => [], global_leverage_history := [],
      reservation_price_history := fun _ => [],
      price_history :=
        symbols.foldl (fun acc sym =>
          updMap acc sym ((List.range N).map (inp.prices sym))) (fun _ => []),
      realized_pnl_history := fun _ => [], spread_history := fun _ => [],
      current_risk_metrics := [] }
  (runLoop cfg inp N 0 0 st0).map fun st =>
    { wallet_balance := st.wallet_balance,
      positions := st.order_manager.positions,
      order_history := st.order_manager.order_history,
      wallet_balance_history := st.wallet_balance_history,
      margin_history := st.margin_history,
      leverage_history := st.leverage_history,
      global_leverage_history := st.global_leverage_history,
      reservation_price_history := st.reservation_price_history,
      price_history := st.price_history,
      realized_pnl_history := st.realized_pnl_history,
      spread_history := st.spread_history }

/-! ## Derived predicates and iteration harnesses used by the claims -/

/-- The Position invariant: the average entry price is unset exactly when the
position is flat. -/
def position_inv (p : Position) : Prop :=
  p.previous_entry_price = none ↔ p.current_quantity = 0

instance (p : Position) : Decidable (position_inv p) := by
  unfold position_inv; infer_instance

/-- The call to execute_position_change succeeded and the invariant holds on
the resulting position. -/
def invAfterChange (o : Option (ℚ × ℚ × Position)) : Prop :=
  o.elim False fun r => position_inv r.2.2

/-- The call to update_unrealized_pnl succeeded and the invariant holds on the
resulting position. -/
def invAfterMark (o : Option (ℚ × Position)) : Prop :=
  o.elim False fun r => position_inv r.2

/-- The guards of the eight enumerated transition cases of
execute_position_change, in source order (they depend only on the old and
updated sizes). -/
def positionCaseFlags (old updated : ℚ) : List Bool :=
  [decide (old = 0 ∧ updated > 0),
   decide (old = 0 ∧ updated < 0),
   decide (old > 0 ∧ updated > old),
   decide (old > 0 ∧ updated < old ∧ updated ≥ 0),
   decide (old > 0 ∧ updated < 0),
   decide (old < 0 ∧ updated < old),
   decide (old < 0 ∧ updated > old ∧ updated ≤ 0),
   decide (old < 0 ∧ updated > 0)]

/-- Apply a sequence of trades `(execution_price, trade_size)` to a position
through execute_position_change, the way OrderManager.execute_order drives it
(old size is the position's current quantity, updated size is old + trade).
Collects the realized PnL returned by each call. -/
def apply_trade_sequence (fee : ℚ) (pos : Position) :
    List (ℚ × ℚ) → Option (Position × List ℚ)
  | [] => some (pos, [])
  | (price, size) :: rest =>
    match pos.execute_position_change price pos.current_quantity
        (pos.current_quantity + size) size fee with
    | none => none
    | some (pnl, _, pos') =>
      (apply_trade_sequence fee pos' rest).map fun r => (r.1, pnl :: r.2)

/-- Observation of an apply_trade_sequence outcome: final entry price, final
quantity, and whether every per-trade realized PnL was zero. -/
def scaleProj (r : Position × List ℚ) : Option ℚ × ℚ × Bool :=
  (r.1.previous_entry_price, r.1.current_quantity, r.2.all fun x => decide (x = 0))

/-- Total signed notional of a trade sequence (sum of price * size). -/
def tradeNotionalSum (trades : List (ℚ × ℚ)) : ℚ :=
  (trades.map fun p => p.1 * p.2).sum

/-- Total signed size of a trade sequence. -/
def tradeSizeSum (trades : List (ℚ × ℚ)) : ℚ :=
  (trades.map Prod.snd).sum

/-! ## Concrete fixtures used by counterexamples and witnesses -/

/-- Run configuration exhibiting an early margin stop: with
`early_stopping_margin = 1` the margin-ratio check fires on the very first
timestamp (ratio 1 ≤ 1), before any trading. -/
def C1cfg : SimConfig :=
  { params := { early_stopping_margin := 1 },
    strategies := [("X",
      ({ minimal_spread := 0,
         calculate_order_levels := fun _ _ =>
           { reservation_price := 0, buy_levels := [], sell_levels := [],
             spread := 0 } } : StrategySpec))],
    ticksize_of := fun _ => 1,
    initial_cash := 1000, maker_fee := 0, taker_fee := 0, min_start := 0,
    coin_flips := fun _ => true }

/-- Two timestamps of flat market data for the early-stop run. -/
def C1inp : SimInputs :=
  { timestamps := [0, 1], prices := fun _ _ => 100, highs := fun _ _ => 100,
    lows := fun _ _ => 100, closes := fun _ _ => 100, indicators := fun _ _ => [] }

/-- Order-manager state with one pending BUY and one pending SELL on symbol X,
both fillable within the bar high 110 / low 90 at ticksize 1. -/
def om4 : OrderManager :=
  { positions := fun _ => {},
    wallet_balance := 1000, maker_fee := 0, taker_fee := 0,
    active_orders := fun s =>
      if s = "X" then
        [{ symbol := "X", timestamp := 0, side := OrderSide.BUY, price := 100,
           quantity := 1 },
         { symbol := "X", timestamp := 0, side := OrderSide.SELL, price := 100,
           quantity := 1 }]
      else [],
    order_history := [] }

/-- A pending BUY limit order on symbol X at price 100. -/
def oW5 : Order :=
  { symbol := "X", timestamp := 0, side := OrderSide.BUY, price := 100, quantity := 1 }

/-- Order-manager state whose only active order is `oW5`. -/
def omW5 : OrderManager :=
  { positions := fun _ => {},
    wallet_balance := 1000, maker_fee := 0, taker_fee := 0,
    active_orders := fun s => if s = "X" then [oW5] else [],
    order_history := [] }

/-- Default risk parameters (max_leverage 1, minimum order value 10 USD). -/
def pC6 : DefaultRiskParameters := {}

/-- A SELL order of 1 unit, validated at reference price 60 (notional 60). -/
def oC6 : Order :=
  { symbol := "X", timestamp := 0, side := OrderSide.SELL, price := 60, quantity := 1 }

/-- Risk metrics of a short position worth -100 against margin 100. -/
def mC6 : RiskMetrics :=
  { current_leverage := -1, current_margin := 100, position_value := -100 }

/-- An empty order-manager state (no positions, no active orders). -/
def omW6 : OrderManager :=
  { positions := fun _ => {},
    wallet_balance := 1000, maker_fee := 0, taker_fee := 0,
    active_orders := fun _ => [], order_history := [] }

/-- Strategy output quoting nothing, with reservation price 60. -/
def soW6 : StrategyOutput :=
  { reservation_price := 60, buy_levels := [], sell_levels := [], spread := 0 }

/-- Default risk parameters for the emergency-exit boundary case. -/
def pC7 : DefaultRiskParameters := {}

/-- Risk metrics whose summed signed leverage is exactly max_leverage = 1. -/
def mC7 : List (String × RiskMetrics) :=
  [("X", { current_leverage := 1, current_margin := 100, position_value := 100 })]

/-- Order manager holding a long position of 2 units of X entered at 100. -/
def omW7 : OrderManager :=
  { positions := fun s =>
      if s = "X" then { previous_entry_price := some 100, current_quantity := 2 } else {},
    wallet_balance := 1000, maker_fee := 0, taker_fee := 0,
    active_orders := fun _ => [], order_history := [] }

/-- Emergency-exit flags with the portfolio-wide Total flag raised. -/
def exitsW7 : EmergencyExits :=
  { total := true, per_symbol := [("X", false)] }

/-- A pending BUY limit order on symbol X at price 100 of size 1. -/
def ord10 : Order :=
  { symbol := "X", timestamp := 0, side := OrderSide.BUY, price := 100, quantity := 1 }

/-- Order-manager state whose active set for X holds two distinct entries with
identical field values (`ord10` listed twice). -/
def om10 : OrderManager :=
  { positions := fun _ => {},
    wallet_balance := 1000, maker_fee := 0, taker_fee := 0,
    active_orders := fun s => if s = "X" then [ord10, ord10] else [],
    order_history := [] }

/-- Starting position of the C2 flip scenario: long 5 units entered at 100. -/
def posC2 : Position :=
  { previous_entry_price := some 100, current_quantity := 5 }

/-- Starting position for the C8 and C9 witnesses: long 2 entered at 50. -/
def posC8 : Position :=
  { previous_entry_price := some 50, current_quantity := 2 }

/-! ## Case lemmas for execute_position_change

One lemma per enumerated transition case, each resolving the guard chain under
the sign facts characterizing that case. -/

lemma epc_flat_long (pos : Position) (price updated trade fee : ℚ) (h : 0 < updated) :
    pos.execute_position_change price 0 updated trade fee =
      some (0, |trade * price| * fee,
        { pos with previous_entry_price := some price, current_quantity := updated }) := by
  unfold Position.execute_position_change
  rw [if_pos ⟨rfl, h⟩]

lemma epc_flat_short (pos : Position) (price updated trade fee : ℚ) (h : updated < 0) :
    pos.execute_position_change price 0 updated trade fee =
      some (0, |trade * price| * fee,
        { pos with previous_entry_price := some price, current_quantity := updated }) := by
  unfold Position.execute_position_change
  rw [if_neg (by rintro ⟨-, h2⟩; exact absurd h2 (lt_asymm h)), if_pos ⟨rfl, h⟩]

lemma epc_long_more (pos : Position) (price old updated trade fee entry : ℚ)
    (he : pos.previous_entry_price = some entry) (h1 : 0 < old) (h2 : old < updated) :
    pos.execute_position_change price old updated trade fee =
      some (0, |trade * price| * fee,
        { pos with
            previous_entry_price := some ((entry * old + price * trade) / updated),
            current_quantity := updated }) := by
  unfold Position.execute_position_change
  rw [if_neg (by rintro ⟨h3, -⟩; exact absurd h3 (ne_of_gt h1)),
      if_neg (by rintro ⟨h3, -⟩; exact absurd h3 (ne_of_gt h1)),
      if_pos ⟨h1, h2⟩, he]

lemma epc_long_less (pos : Position) (price old updated trade fee entry : ℚ)
    (he : pos.previous_entry_price = some entry) (h1 : 0 < old) (h2 : updated < old)
    (h3 : 0 ≤ updated) :
    pos.execute_position_change price old updated trade fee =
      some (|trade| * (price - entry), |trade * price| * fee,
        { pos with
            previous_entry_price :=
              if updated = 0 then none else pos.previous_entry_price,
            current_quantity := updated }) := by
  unfold Position.execute_position_change
  rw [if_neg (by rintro ⟨h4, -⟩; exact absurd h4 (ne_of_gt h1)),
      if_neg (by rintro ⟨h4, -⟩; exact absurd h4 (ne_of_gt h1)),
      if_neg (by rintro ⟨-, h4⟩; exact absurd h4 (lt_asymm h2)),
      if_pos ⟨h1, h2, h3⟩, he]

lemma epc_long_flip (pos : Position) (price old updated trade fee entry : ℚ)
    (he : pos.previous_entry_price = some entry) (h1 : 0 < old) (h2 : updated < 0) :
    pos.execute_position_change price old updated trade fee =
      some (old * (price - entry), |trade * price| * fee,
        { pos with previous_entry_price := some price, current_quantity := updated }) := by
  unfold Position.execute_position_change
  rw [if_neg (by rintro ⟨h3, -⟩; exact absurd h3 (ne_of_gt h1)),
      if_neg (by rintro ⟨h3, -⟩; exact absurd h3 (ne_of_gt h1)),
      if_neg (by rintro ⟨-, h3⟩; exact absurd h3 (lt_asymm (h2.trans h1))),
      if_neg (by rintro ⟨-, -, h3⟩; exact absurd h2 (not_lt.mpr h3)),
      if_pos ⟨h1, h2⟩, he]

lemma epc_short_more (pos : Position) (price old updated trade fee entry : ℚ)
    (he : pos.previous_entry_price = some entry) (h1 : old < 0) (h2 : updated < old) :
    pos.execute_position_change price old updated trade fee =
      some (0, |trade * price| * fee,
        { pos with
            previous_entry_price :=
              some ((entry * |old| + price * |trade|) / |updated|),
            current_quantity := updated }) := by
  unfold Position.execute_position_change
  rw [if_neg (by rintro ⟨h3, -⟩; exact absurd h3 (ne_of_lt h1)),
      if_neg (by rintro ⟨h3, -⟩; exact absurd h3 (ne_of_lt h1)),
      if_neg (by rintro ⟨h3, -⟩; exact absurd h3 (lt_asymm h1)),
      if_neg (by rintro ⟨h3, -⟩; exact absurd h3 (lt_asymm h1)),
      if_neg (by rintro ⟨h3, -⟩; exact absurd h3 (lt_asymm h1)),
      if_pos ⟨h1, h2⟩, he]

lemma epc_short_less (pos : Position) (price old updated trade fee entry : ℚ)
    (he : pos.previous_entry_price = some entry) (h1 : old < 0) (h2 : old < updated)
    (h3 : updated ≤ 0) :
    pos.execute_position_change price old updated trade fee =
      some (|trade| * (entry - price), |trade * price| * fee,
        { pos with
            previous_entry_price :=
              if updated = 0 then none else pos.previous_entry_price,
            current_quantity := updated }) := by
  unfold Position.execute_position_change
  rw [if_neg (by rintro ⟨h4, -⟩; exact absurd h4 (ne_of_lt h1)),
      if_neg (by rintro ⟨h4, -⟩; exact absurd h4 (ne_of_lt h1)),
      if_neg (by rintro ⟨h4, -⟩; exact absurd h4 (lt_asymm h1)),
      if_neg (by rintro ⟨h4, -⟩; exact absurd h4 (lt_asymm h1)),
      if_neg (by rintro ⟨h4, -⟩; exact absurd h4 (lt_asymm h1)),
      if_neg (by rintro ⟨-, h4⟩; exact absurd h4 (lt_asymm h2)),
      if_pos ⟨h1, h2, h3⟩, he]

lemma epc_short_flip (pos : Position) (price old updated trade fee entry : ℚ)
    (he : pos.previous_entry_price = some entry) (h1 : old < 0) (h2 : 0 < updated) :
    pos.execute_position_change price old updated trade fee =
      some (|old| * (entry - price), |trade * price| * fee,
        { pos with previous_entry_price := some price, current_quantity := updated }) := by
  unfold Position.execute_position_change
  rw [if_neg (by rintro ⟨h3, -⟩; exact absurd h3 (ne_of_lt h1)),
      if_neg (by rintro ⟨h3, -⟩; exact absurd h3 (ne_of_lt h1)),
      if_neg (by rintro ⟨h3, -⟩; exact absurd h3 (lt_asymm h1)),
      if_neg (by rintro ⟨h3, -⟩; exact absurd h3 (lt_asymm h1)),
      if_neg (by rintro ⟨h3, -⟩; exact absurd h3 (lt_asymm h1)),
      if_neg (by rintro ⟨-, h3⟩; exact absurd h3 (lt_asymm (h1.trans h2))),
      if_neg (by rintro ⟨-, -, h3⟩; exact absurd h2 (not_lt.mpr h3)),
      if_pos ⟨h1, h2⟩, he]

lemma epc_unhandled (pos : Position) (price old fee : ℚ) (h1 : old ≠ 0) :
    pos.execute_position_change price old old 0 fee = none := by
  unfold Position.execute_position_change
  rw [if_neg (by rintro ⟨h2, -⟩; exact h1 h2),
      if_neg (by rintro ⟨h2, -⟩; exact h1 h2),
      if_neg (by rintro ⟨-, h2⟩; exact absurd h2 (lt_irrefl old)),
      if_neg (by rintro ⟨-, h2, -⟩; exact absurd h2 (lt_irrefl old)),
      if_neg (by rintro ⟨h2, h3⟩; exact absurd h3 (lt_asymm h2)),
      if_neg (by rintro ⟨-, h2⟩; exact absurd h2 (lt_irrefl old)),
      if_neg (by rintro ⟨-, h2, -⟩; exact absurd h2 (lt_irrefl old)),
      if_neg (by rintro ⟨h2, h3⟩; exact absurd h3 (lt_asymm h2))]

/-! ## Claim theorems -/

/-- C2: on any direction flip (old and updated sizes of opposite nonzero
sign), execute_position_change crystallizes the PnL of the entire old quantity
at the execution price (uniformly `old * (price - entry)` for both flip
directions) and re-opens at the execution price: the updated position carries
`previous_entry_price = execution_price` and `current_quantity = updated`,
with no residual realized PnL attributed to the new leg. -/
theorem C2_direction_flip (pos : Position) (entry price old updated trade fee : ℚ)
    (he : pos.previous_entry_price = some entry)
    (hupd : updated = old + trade)
    (hflip : old * updated < 0) :
    pos.execute_position_change price old updated trade fee =
      some (old * (price - entry), |trade * price| * fee,
        { pos with previous_entry_price := some price, current_quantity := updated }) := by
  rcases mul_neg_iff.mp hflip with ⟨h1, h2⟩ | ⟨h1, h2⟩
  · rw [epc_long_flip pos price old updated trade fee entry he h1 h2]
  · rw [epc_short_flip pos price old updated trade fee entry he h1 h2]
    have h3 : |old| * (entry - price) = old * (price - entry) := by
      rw [abs_of_neg h1]; ring
    rw [h3]

/-- Witness for C2 at the claim's concrete numbers: position +5 @ 100, SELL 8
at 120 realizes exactly 100 and leaves -3 @ 120. -/
theorem C2_witness :
    Position.execute_position_change posC2 120 5 (-3) (-8) 0 =
      some (100, 0, { posC2 with previous_entry_price := some 120,
                                 current_quantity := -3 }) := by
  have h := C2_direction_flip posC2 100 120 5 (-3) (-8) 0 rfl (by norm_num) (by norm_num)
  rw [h]
  norm_num

/-- Any consistent (trade ≠ 0) call with the entry price set while the
position is open lands in one of the eight enumerated branches, hence
succeeds. -/
lemma epc_isSome (pos : Position) (price old updated trade fee : ℚ)
    (hupd : updated = old + trade) (htr : trade ≠ 0)
    (hentry : old ≠ 0 → pos.previous_entry_price.isSome = true) :
    (pos.execute_position_change price old updated trade fee).isSome = true := by
  rcases lt_trichotomy old 0 with ho | ho | ho
  · obtain ⟨entry, he⟩ := Option.isSome_iff_exists.mp (hentry (ne_of_lt ho))
    rcases lt_trichotomy updated old with hu | hu | hu
    · rw [epc_short_more pos price old updated trade fee entry he ho hu]; rfl
    · exact absurd (by linarith : trade = 0) htr
    · rcases lt_trichotomy updated 0 with hu2 | hu2 | hu2
      · rw [epc_short_less pos price old updated trade fee entry he ho hu (le_of_lt hu2)]
        rfl
      · rw [epc_short_less pos price old updated trade fee entry he ho hu (le_of_eq hu2)]
        rfl
      · rw [epc_short_flip pos price old updated trade fee entry he ho hu2]; rfl
  · subst ho
    rcases lt_trichotomy updated 0 with hu | hu | hu
    · rw [epc_flat_short pos price updated trade fee hu]; rfl
    · exact absurd (by linarith : trade = 0) htr
    · rw [epc_flat_long pos price updated trade fee hu]; rfl
  · obtain ⟨entry, he⟩ := Option.isSome_iff_exists.mp (hentry (ne_of_gt ho))
    rcases lt_trichotomy updated old with hu | hu | hu
    · rcases lt_trichotomy updated 0 with hu2 | hu2 | hu2
      · rw [epc_long_flip pos price old updated trade fee entry he ho hu2]; rfl
      · rw [epc_long_less pos price old updated trade fee entry he ho hu (le_of_eq hu2.symm)]
        rfl
      · rw [epc_long_less pos price old updated trade fee entry he ho hu (le_of_lt hu2)]
        rfl
    · exact absurd (by linarith : trade = 0) htr
    · rw [epc_long_more pos price old updated trade fee entry he ho hu]; rfl

/-- For every consistent old/updated pair exactly one of the eight case guards
holds. -/
lemma flags_count_one (old updated trade : ℚ) (hupd : updated = old + trade)
    (htr : trade ≠ 0) : (positionCaseFlags old updated).count true = 1 := by
  rcases lt_trichotomy old 0 with ho | ho | ho
  · rcases lt_trichotomy updated old with hu | hu | hu
    · simp [positionCaseFlags, ho, hu, ne_of_lt ho, lt_asymm ho, lt_asymm hu,
        lt_asymm (hu.trans ho)]
    · exact absurd (by linarith : trade = 0) htr
    · rcases lt_trichotomy updated 0 with hu2 | hu2 | hu2
      · simp [positionCaseFlags, ho, hu, le_of_lt hu2, ne_of_lt ho, lt_asymm ho,
          lt_asymm hu, lt_asymm hu2]
      · subst hu2
        simp [positionCaseFlags, ho, hu, ne_of_lt ho, lt_asymm ho]
      · simp [positionCaseFlags, ho, hu2, ne_of_lt ho, lt_asymm ho,
          lt_asymm (ho.trans hu2), not_le.mpr hu2, lt_asymm hu2]
  · subst ho
    rcases lt_trichotomy updated 0 with hu | hu | hu
    · simp [positionCaseFlags, hu, lt_asymm hu]
    · exact absurd (by linarith : trade = 0) htr
    · simp [positionCaseFlags, hu, lt_asymm hu]
  · rcases lt_trichotomy updated old with hu | hu | hu
    · rcases lt_trichotomy updated 0 with hu2 | hu2 | hu2
      · simp [positionCaseFlags, ho, hu, hu2, ne_of_gt ho, lt_asymm ho, lt_asymm hu,
          not_le.mpr hu2, lt_asymm hu2]
      · subst hu2
        simp [positionCaseFlags, ho, hu, ne_of_gt ho, lt_asymm ho]
      · simp [positionCaseFlags, ho, hu, le_of_lt hu2, ne_of_gt ho, lt_asymm ho,
          lt_asymm hu, lt_asymm hu2]
    · exact absurd (by linarith : trade = 0) htr
    · simp [positionCaseFlags, ho, hu, ne_of_gt ho, lt_asymm ho, lt_asymm hu,
        lt_asymm (ho.trans hu)]

/-- C8: for consistent inputs (updated = old + trade, trade ≠ 0, entry price
set while the position is open) exactly one of the eight enumerated transition
cases applies and the call succeeds (the final ValueError branch is
unreachable); a zero-size trade against a nonzero position falls outside all
eight cases and raises. -/
theorem C8_case_coverage :
    (∀ (pos : Position) (price old updated trade fee : ℚ),
        updated = old + trade → trade ≠ 0 →
        (old ≠ 0 → pos.previous_entry_price.isSome = true) →
        (pos.execute_position_change price old updated trade fee).isSome = true ∧
          (positionCaseFlags old updated).count true = 1) ∧
    (∀ (pos : Position) (price old fee : ℚ), old ≠ 0 →
        pos.execute_position_change price old old 0 fee = none) :=
  ⟨fun pos price old updated trade fee h1 h2 h3 =>
    ⟨epc_isSome pos price old updated trade fee h1 h2 h3,
     flags_count_one old updated trade h1 h2⟩,
   fun pos price old fee h => epc_unhandled pos price old fee h⟩

/-- Witness for C8: a long add-on (2 → 5 by +3) succeeds with exactly one case
guard active, and a zero trade against the open position raises. -/
theorem C8_witness :
    ((Position.execute_position_change posC8 60 2 5 3 0).isSome = true ∧
      (positionCaseFlags 2 5).count true = 1) ∧
    Position.execute_position_change posC8 60 2 2 0 0 = none :=
  ⟨C8_case_coverage.1 posC8 60 2 5 3 0 (by norm_num) (by norm_num) (fun _ => rfl),
   C8_case_coverage.2 posC8 60 2 0 (by norm_num)⟩

/-- C9: starting from any position satisfying the entry-iff-open invariant,
every consistent execute_position_change call (old size taken from the
position itself) succeeds and preserves the invariant, and
update_unrealized_pnl succeeds and preserves it as well. -/
theorem C9_entry_iff_flat :
    (∀ (pos : Position) (price old updated trade fee : ℚ),
        position_inv pos → old = pos.current_quantity → updated = old + trade →
        trade ≠ 0 →
        invAfterChange (pos.execute_position_change price old updated trade fee)) ∧
    (∀ (pos : Position) (price : ℚ), position_inv pos →
        invAfterMark (pos.update_unrealized_pnl price)) := by
  constructor
  · intro pos price old updated trade fee hinv hold hupd htr
    by_cases ho0 : old = 0
    · subst ho0
      rcases lt_trichotomy updated 0 with hu | hu | hu
      · rw [epc_flat_short pos price updated trade fee hu]
        simp [invAfterChange, position_inv, ne_of_lt hu]
      · exact absurd (by linarith : trade = 0) htr
      · rw [epc_flat_long pos price updated trade fee hu]
        simp [invAfterChange, position_inv, ne_of_gt hu]
    · have hq : pos.current_quantity ≠ 0 := fun h => ho0 (hold.trans h)
      obtain ⟨entry, he⟩ : ∃ e, pos.previous_entry_price = some e := by
        cases hpe : pos.previous_entry_price with
        | none => exact absurd (hinv.mp hpe) hq
        | some e => exact ⟨e, rfl⟩
      rcases lt_trichotomy old 0 with ho | ho | ho
      · rcases lt_trichotomy updated old with hu | hu | hu
        · rw [epc_short_more pos price old updated trade fee entry he ho hu]
          simp [invAfterChange, position_inv, ne_of_lt (hu.trans ho)]
        · exact absurd (by linarith : trade = 0) htr
        · rcases lt_trichotomy updated 0 with hu2 | hu2 | hu2
          · rw [epc_short_less pos price old updated trade fee entry he ho hu
              (le_of_lt hu2)]
            simp [invAfterChange, position_inv, ne_of_lt hu2, he]
          · rw [epc_short_less pos price old updated trade fee entry he ho hu
              (le_of_eq hu2)]
            simp [invAfterChange, position_inv, hu2]
          · rw [epc_short_flip pos price old updated trade fee entry he ho hu2]
            simp [invAfterChange, position_inv, ne_of_gt hu2]
      · exact absurd ho ho0
      · rcases lt_trichotomy updated old with hu | hu | hu
        · rcases lt_trichotomy updated 0 with hu2 | hu2 | hu2
          · rw [epc_long_flip pos price old updated trade fee entry he ho hu2]
            simp [invAfterChange, position_inv, ne_of_lt hu2]
          · rw [epc_long_less pos price old updated trade fee entry he ho hu
              (le_of_eq hu2.symm)]
            simp [invAfterChange, position_inv, hu2]
          · rw [epc_long_less pos price old updated trade fee entry he ho hu
              (le_of_lt hu2)]
            simp [invAfterChange, position_inv, ne_of_gt hu2, he]
        · exact absurd (by linarith : trade = 0) htr
        · rw [epc_long_more pos price old updated trade fee entry he ho hu]
          simp [invAfterChange, position_inv, ne_of_gt (ho.trans hu)]
  · intro pos price hinv
    unfold Position.update_unrealized_pnl
    by_cases hq : pos.current_quantity = 0
    · rw [if_pos hq]
      simpa [invAfterMark, position_inv] using hinv
    · obtain ⟨entry, he⟩ : ∃ e, pos.previous_entry_price = some e := by
        cases hpe : pos.previous_entry_price with
        | none => exact absurd (hinv.mp hpe) hq
        | some e => exact ⟨e, rfl⟩
      rw [if_neg hq]
      by_cases hq2 : pos.current_quantity > 0
      · rw [if_pos hq2, he]
        simp [invAfterMark, position_inv, he, hq]
      · rw [if_neg hq2, he]
        simp [invAfterMark, position_inv, he, hq]

/-- Witness for C9: the invariant survives a concrete add-on trade and a
concrete mark-to-market on the long 2 @ 50 position. -/
theorem C9_witness :
    invAfterChange (Position.execute_position_change posC8 60 2 5 3 0) ∧
    invAfterMark (Position.update_unrealized_pnl posC8 60) :=
  ⟨C9_entry_iff_flat.1 posC8 60 2 5 3 0 (by decide) rfl (by norm_num) (by norm_num),
   C9_entry_iff_flat.2 posC8 60 (by decide)⟩

lemma scaleProj_comp_cons_zero :
    (scaleProj ∘ fun r : Position × List ℚ => (r.1, (0 : ℚ) :: r.2)) = scaleProj := by
  funext r
  simp [scaleProj]

/-- Scale-in invariant: starting from an open position whose entry price is
the weighted mean `w / q` of the notional `w` over the size `q`, a sequence of
same-direction size-increasing trades keeps the entry price equal to the
accumulated weighted mean and realizes zero PnL on every trade. -/
lemma scale_in_invariant (fee : ℚ) (trades : List (ℚ × ℚ)) :
    ∀ (pos : Position) (w q : ℚ), q ≠ 0 →
      pos.current_quantity = q → pos.previous_entry_price = some (w / q) →
      ((0 < q ∧ ∀ p ∈ trades, 0 < p.2) ∨ (q < 0 ∧ ∀ p ∈ trades, p.2 < 0)) →
      (apply_trade_sequence fee pos trades).map scaleProj =
        some (some ((w + tradeNotionalSum trades) / (q + tradeSizeSum trades)),
          q + tradeSizeSum trades, true) := by
  induction trades with
  | nil =>
    intro pos w q hq hqty he _
    simp [apply_trade_sequence, scaleProj, tradeNotionalSum, tradeSizeSum, hqty, he]
  | cons head rest ih =>
    intro pos w q hq hqty he hsign
    obtain ⟨p, s⟩ := head
    simp only [apply_trade_sequence]
    rw [hqty]
    rcases hsign with ⟨hqpos, hall⟩ | ⟨hqneg, hall⟩
    · have hs : 0 < s := hall (p, s) (by simp)
      have hqs : 0 < q + s := by linarith
      rw [epc_long_more pos p q (q + s) s fee (w / q) he hqpos (by linarith)]
      dsimp only
      rw [Option.map_map, scaleProj_comp_cons_zero]
      have he' :
          ({ pos with
              previous_entry_price := some ((w / q * q + p * s) / (q + s)),
              current_quantity := q + s } : Position).previous_entry_price =
            some ((w + p * s) / (q + s)) := by
        simp [div_mul_cancel₀ _ hq]
      have ihr := ih { pos with
          previous_entry_price := some ((w / q * q + p * s) / (q + s)),
          current_quantity := q + s } (w + p * s) (q + s) (ne_of_gt hqs) rfl he'
        (Or.inl ⟨hqs, fun p' hp' => hall p' (List.mem_cons_of_mem _ hp')⟩)
      rw [ihr]
      simp only [tradeNotionalSum, tradeSizeSum, List.map_cons, List.sum_cons,
        Option.some.injEq, Prod.mk.injEq]
      exact ⟨by rw [add_assoc, add_assoc], by rw [add_assoc], trivial⟩
    · have hs : s < 0 := hall (p, s) (by simp)
      have hqs : q + s < 0 := by linarith
      rw [epc_short_more pos p q (q + s) s fee (w / q) he hqneg (by linarith)]
      dsimp only
      rw [Option.map_map, scaleProj_comp_cons_zero]
      have habs : (w / q * |q| + p * |s|) / |q + s| = (w + p * s) / (q + s) := by
        rw [abs_of_neg hqneg, abs_of_neg hs, abs_of_neg hqs, mul_neg, mul_neg,
          div_mul_cancel₀ _ hq, ← neg_add, neg_div_neg_eq]
      have he' :
          ({ pos with
              previous_entry_price := some ((w / q * |q| + p * |s|) / |q + s|),
              current_quantity := q + s } : Position).previous_entry_price =
            some ((w + p * s) / (q + s)) := by
        simp [habs]
      have ihr := ih { pos with
          previous_entry_price := some ((w / q * |q| + p * |s|) / |q + s|),
          current_quantity := q + s } (w + p * s) (q + s) (ne_of_lt hqs) rfl he'
        (Or.inr ⟨hqs, fun p' hp' => hall p' (List.mem_cons_of_mem _ hp')⟩)
      rw [ihr]
      simp only [tradeNotionalSum, tradeSizeSum, List.map_cons, List.sum_cons,
        Option.some.injEq, Prod.mk.injEq]
      exact ⟨by rw [add_assoc, add_assoc], by rw [add_assoc], trivial⟩

/-- C3: for every nonempty sequence of same-direction position-increasing
trades applied through execute_position_change starting from a flat position,
the call chain succeeds, the resulting entry price is the size-weighted mean
of the execution prices, the resulting quantity is the total size, and every
trade in the sequence returned realized PnL zero. -/
theorem C3_weighted_average_entry (fee : ℚ) (trades : List (ℚ × ℚ))
    (hne : trades ≠ [])
    (hsign : (∀ p ∈ trades, 0 < p.2) ∨ (∀ p ∈ trades, p.2 < 0)) :
    (apply_trade_sequence fee {} trades).map scaleProj =
      some (some (tradeNotionalSum trades / tradeSizeSum trades),
        tradeSizeSum trades, true) := by
  obtain ⟨⟨p, s⟩, rest, rfl⟩ : ∃ h t, trades = h :: t := by
    cases trades with
    | nil => exact absurd rfl hne
    | cons h t => exact ⟨h, t, rfl⟩
  simp only [apply_trade_sequence]
  rw [zero_add]
  rcases hsign with hall | hall
  · have hs : 0 < s := hall (p, s) (by simp)
    rw [epc_flat_long {} p s s fee hs]
    dsimp only
    rw [Option.map_map, scaleProj_comp_cons_zero]
    refine Eq.trans (scale_in_invariant fee rest _ (p * s) s (ne_of_gt hs) rfl ?_
      (Or.inl ⟨hs, fun p' hp' => hall p' (List.mem_cons_of_mem _ hp')⟩)) ?_
    · simp [mul_div_cancel_right₀ _ (ne_of_gt hs)]
    · simp [tradeNotionalSum, tradeSizeSum]
  · have hs : s < 0 := hall (p, s) (by simp)
    rw [epc_flat_short {} p s s fee hs]
    dsimp only
    rw [Option.map_map, scaleProj_comp_cons_zero]
    refine Eq.trans (scale_in_invariant fee rest _ (p * s) s (ne_of_lt hs) rfl ?_
      (Or.inr ⟨hs, fun p' hp' => hall p' (List.mem_cons_of_mem _ hp')⟩)) ?_
    · simp [mul_div_cancel_right₀ _ (ne_of_lt hs)]
    · simp [tradeNotionalSum, tradeSizeSum]

/-- Witness for C3: buying 2 @ 100 then 2 @ 110 from flat gives entry 105,
quantity 4 and zero realized PnL on each trade. -/
theorem C3_witness :
    (apply_trade_sequence 0 {} [(100, 2), (110, 2)]).map scaleProj =
      some (some 105, 4, true) := by
  have h := C3_weighted_average_entry 0 [(100, 2), (110, 2)] (by decide)
    (Or.inl (by decide))
  rw [h]
  norm_num [tradeNotionalSum, tradeSizeSum]

/-- Counterexample to C4: on the same manager state and bar, the two outcomes
of the per-bar coin flip return the filled orders in different sequences, so
check_order_fills does not return the same list on identical inputs. -/
theorem C4_counterexample :
    (om4.check_order_fills "X" 110 90 1 true).1 ≠
      (om4.check_order_fills "X" 110 90 1 false).1 := by
  with_unfolding_all decide

/-- C4 (amended): each order's fill decision and the resulting manager state
are independent of the coin flip — the two coin outcomes return the same
multiset of filled orders (one is a permutation of the other) and leave
identical active-order state — but the sequence of the returned list does
depend on the per-bar random coin flip. -/
theorem C4_fill_set_coin_independent (om : OrderManager) (symbol : String)
    (high low ticksize : ℚ) :
    ((om.check_order_fills symbol high low ticksize true).1).Perm
      ((om.check_order_fills symbol high low ticksize false).1) ∧
    (om.check_order_fills symbol high low ticksize true).2 =
      (om.check_order_fills symbol high low ticksize false).2 :=
  ⟨List.perm_append_comm, rfl⟩

lemma mark_filled_inj (a b : Order) (ha : a.status = OrderStatus.PENDING)
    (hb : b.status = OrderStatus.PENDING)
    (h : ({ a with status := OrderStatus.FILLED } : Order) =
      { b with status := OrderStatus.FILLED }) : a = b := by
  cases a
  cases b
  simp_all

lemma check_fill_fst_iff (o : Order) (high low ticksize : ℚ) (now : ℤ)
    (hp : o.status = OrderStatus.PENDING) :
    (o.check_fill high low now ticksize).1 = true ↔
      ((o.side = OrderSide.BUY ∧ low ≤ o.price - ticksize) ∨
       (o.side = OrderSide.SELL ∧ high ≥ o.price + ticksize)) := by
  cases hs : o.side with
  | BUY =>
    by_cases hc : low ≤ o.price - ticksize <;>
      simp [Order.check_fill, hp, hs, hc]
  | SELL =>
    by_cases hc : high ≥ o.price + ticksize <;>
      simp [Order.check_fill, hp, hs, hc]

lemma mem_check_order_fills (om : OrderManager) (symbol : String)
    (high low ticksize : ℚ) (coin : Bool) (o : Order)
    (hp : o.status = OrderStatus.PENDING) (hmem : o ∈ om.active_orders symbol) :
    (({ o with status := OrderStatus.FILLED } : Order) ∈
        (om.check_order_fills symbol high low ticksize coin).1) ↔
      ((o.side = OrderSide.BUY ∧ low ≤ o.price - ticksize) ∨
       (o.side = OrderSide.SELL ∧ high ≥ o.price + ticksize)) := by
  have hmain : ∀ l : List Order,
      (({ o with status := OrderStatus.FILLED } : Order) ∈ l) →
      l = (((om.active_orders symbol).filter fun a =>
              decide (a.side = OrderSide.BUY ∧ a.status = OrderStatus.PENDING)).filter
            fun a => decide (low ≤ a.price - ticksize)).map
          (fun a => { a with status := OrderStatus.FILLED }) →
      (o.side = OrderSide.BUY ∧ low ≤ o.price - ticksize) := by
    intro l hl hleq
    subst hleq
    obtain ⟨a, hain, hmk⟩ := List.mem_map.mp hl
    obtain ⟨ha1, ha2⟩ := List.mem_filter.mp hain
    obtain ⟨-, ha3⟩ := List.mem_filter.mp ha1
    have ha3' := of_decide_eq_true ha3
    have ha2' := of_decide_eq_true ha2
    have : a = o := mark_filled_inj a o ha3'.2 hp hmk
    subst this
    exact ⟨ha3'.1, ha2'⟩
  have hmain' : ∀ l : List Order,
      (({ o with status := OrderStatus.FILLED } : Order) ∈ l) →
      l = (((om.active_orders symbol).filter fun a =>
              decide (a.side = OrderSide.SELL ∧ a.status = OrderStatus.PENDING)).filter
            fun a => decide (high ≥ a.price + ticksize)).map
          (fun a => { a with status := OrderStatus.FILLED }) →
      (o.side = OrderSide.SELL ∧ high ≥ o.price + ticksize) := by
    intro l hl hleq
    subst hleq
    obtain ⟨a, hain, hmk⟩ := List.mem_map.mp hl
    obtain ⟨ha1, ha2⟩ := List.mem_filter.mp hain
    obtain ⟨-, ha3⟩ := List.mem_filter.mp ha1
    have ha3' := of_decide_eq_true ha3
    have ha2' := of_decide_eq_true ha2
    have : a = o := mark_filled_inj a o ha3'.2 hp hmk
    subst this
    exact ⟨ha3'.1, ha2'⟩
  constructor
  · intro hin
    simp only [OrderManager.check_order_fills] at hin
    cases coin with
    | true =>
      rcases List.mem_append.mp hin with h | h
      · exact Or.inl (hmain _ h rfl)
      · exact Or.inr (hmain' _ h rfl)
    | false =>
      rcases List.mem_append.mp hin with h | h
      · exact Or.inr (hmain' _ h rfl)
      · exact Or.inl (hmain _ h rfl)
  · intro hcase
    have hbuy : (o.side = OrderSide.BUY ∧ low ≤ o.price - ticksize) →
        ({ o with status := OrderStatus.FILLED } : Order) ∈
          (((om.active_orders symbol).filter fun a =>
              decide (a.side = OrderSide.BUY ∧ a.status = OrderStatus.PENDING)).filter
            fun a => decide (low ≤ a.price - ticksize)).map
          (fun a => { a with status := OrderStatus.FILLED }) := by
      rintro ⟨h1, h2⟩
      exact List.mem_map.mpr ⟨o, List.mem_filter.mpr
        ⟨List.mem_filter.mpr ⟨hmem, decide_eq_true ⟨h1, hp⟩⟩, decide_eq_true h2⟩, rfl⟩
    have hsell : (o.side = OrderSide.SELL ∧ high ≥ o.price + ticksize) →
        ({ o with status := OrderStatus.FILLED } : Order) ∈
          (((om.active_orders symbol).filter fun a =>
              decide (a.side = OrderSide.SELL ∧ a.status = OrderStatus.PENDING)).filter
            fun a => decide (high ≥ a.price + ticksize)).map
          (fun a => { a with status := OrderStatus.FILLED }) := by
      rintro ⟨h1, h2⟩
      exact List.mem_map.mpr ⟨o, List.mem_filter.mpr
        ⟨List.mem_filter.mpr ⟨hmem, decide_eq_true ⟨h1, hp⟩⟩, decide_eq_true h2⟩, rfl⟩
    simp only [OrderManager.check_order_fills]
    cases coin with
    | true =>
      rcases hcase with h | h
      · exact List.mem_append.mpr (Or.inl (hbuy h))
      · exact List.mem_append.mpr (Or.inr (hsell h))
    | false =>
      rcases hcase with h | h
      · exact List.mem_append.mpr (Or.inr (hbuy h))
      · exact List.mem_append.mpr (Or.inl (hsell h))

/-- C5: for every pending limit order the inline fill test of
check_order_fills agrees with LimitOrder.check_fill; check_fill fires exactly
on the claimed price conditions (BUY: low ≤ price − ticksize, SELL: high ≥
price + ticksize); and a pending active order is collected among the bar's
fills by check_order_fills (under either coin outcome) iff check_fill fires
on it. -/
theorem C5_fill_rule_refines (o : Order) (high low ticksize : ℚ) (now : ℤ)
    (hp : o.status = OrderStatus.PENDING) :
    (omFillTest o high low ticksize = (o.check_fill high low now ticksize).1) ∧
    ((o.check_fill high low now ticksize).1 = true ↔
      ((o.side = OrderSide.BUY ∧ low ≤ o.price - ticksize) ∨
       (o.side = OrderSide.SELL ∧ high ≥ o.price + ticksize))) ∧
    (∀ (om : OrderManager) (symbol : String) (coin : Bool),
        o ∈ om.active_orders symbol →
        ((({ o with status := OrderStatus.FILLED } : Order) ∈
            (om.check_order_fills symbol high low ticksize coin).1) ↔
          (o.check_fill high low now ticksize).1 = true)) := by
  refine ⟨?_, check_fill_fst_iff o high low ticksize now hp,
    fun om symbol coin hmem =>
      (mem_check_order_fills om symbol high low ticksize coin o hp hmem).trans
        (check_fill_fst_iff o high low ticksize now hp).symm⟩
  cases hs : o.side with
  | BUY =>
    by_cases hc : low ≤ o.price - ticksize <;>
      simp [omFillTest, Order.check_fill, hp, hs, hc]
  | SELL =>
    by_cases hc : high ≥ o.price + ticksize <;>
      simp [omFillTest, Order.check_fill, hp, hs, hc]

/-- Witness for C5 on a concrete pending BUY order at 100 against bar
high 110 / low 90, ticksize 1: the inline test agrees with check_fill, and the
order is among the returned fills. -/
theorem C5_witness :
    omFillTest oW5 110 90 1 = (oW5.check_fill 110 90 0 1).1 ∧
    (({ oW5 with status := OrderStatus.FILLED } : Order) ∈
      (omW5.check_order_fills "X" 110 90 1 true).1) := by
  have h := C5_fill_rule_refines oW5 110 90 1 0 rfl
  exact ⟨h.1, (h.2.2 omW5 "X" true (by decide)).mpr
    (by with_unfolding_all decide)⟩

/-- C10: execute_order rewrites the symbol's active set to the orders that are
not field-wise equal to the executed order — every active order whose fields
equal the executed one is removed, not only the executed instance — so no
order equal to it survives in the active set. -/
theorem C10_execute_removes_equal_orders (om : OrderManager) (order : Order)
    (r : OrderManager × ℚ) (h : om.execute_order order = some r) :
    r.1.active_orders order.symbol =
      (om.active_orders order.symbol).filter (fun o => decide (o ≠ order)) ∧
    ∀ o ∈ r.1.active_orders order.symbol, o ≠ order := by
  simp only [OrderManager.execute_order] at h
  split at h
  · exact absurd h (by simp)
  · injection h with h'
    subst h'
    constructor
    · simp [updMap]
    · intro o ho
      simp only [updMap, if_pos rfl] at ho
      exact of_decide_eq_true (List.mem_filter.mp ho).2

/-- Witness for C10: executing one of two field-wise identical active orders
removes both from the active set (which held 2 entries). -/
theorem C10_witness :
    (om10.execute_order ord10).map (fun r => r.1.active_orders "X") = some [] ∧
    (om10.active_orders "X").length = 2 := by
  constructor
  · cases hr : om10.execute_order ord10 with
    | none =>
      have hs : (om10.execute_order ord10).isSome = true := by
        with_unfolding_all rfl
      rw [hr] at hs
      exact absurd hs (by simp)
    | some r =>
      have h : r.1.active_orders "X" =
          (om10.active_orders "X").filter (fun o => decide (o ≠ ord10)) :=
        (C10_execute_removes_equal_orders om10 ord10 r hr).1
      simp only [Option.map_some']
      rw [h]
      with_unfolding_all decide
  · rfl

lemma updMap_same {α : Type} (f : String → α) (sym : String) (v : α) :
    updMap f sym v sym = v := by
  simp [updMap]

/-- generate_limit_orders appends the same validated batch to the symbol's
active set and to the order history; every appended order passed the risk
validator. -/
lemma generate_limit_orders_appends (om : OrderManager) (t : ℤ) (symbol : String)
    (so : StrategyOutput) (cur maxp : ℚ) (m : RiskMetrics) (n : ℕ)
    (params : DefaultRiskParameters) :
    ∃ added : List Order,
      ((om.generate_limit_orders t symbol so cur maxp m n params).2).active_orders
          symbol = om.active_orders symbol ++ added ∧
      ((om.generate_limit_orders t symbol so cur maxp m n params).2).order_history =
        om.order_history ++ added ∧
      ∀ o ∈ added,
        BasicRiskStrategy.validate_single_order params o so.reservation_price m n =
          true := by
  refine ⟨_, ?_, rfl, ?_⟩
  · simp only [OrderManager.generate_limit_orders]
    exact updMap_same _ _ _
  · intro o ho
    exact (List.mem_filter.mp ho).2

/-- Counterexample to C6: a SELL order on a net-short book is rejected by the
code (|post-fill value| / margin = 1.6 > cap 1) although neither of the
claim's rejection conditions holds — the notional 60 is above the minimum 10,
and the signed post-fill value over margin is −1.6, which does not exceed the
cap. -/
theorem C6_counterexample :
    BasicRiskStrategy.validate_single_order pC6 oC6 60 mC6 1 = false ∧
    ¬ (oC6.quantity * 60 < pC6.min_order_value_usd) ∧
    ¬ ((mC6.position_value +
          (if oC6.side = OrderSide.BUY then oC6.quantity * 60
           else -(oC6.quantity * 60))) / mC6.current_margin >
        pC6.max_leverage / ((1 : ℕ) : ℚ)) := by
  with_unfolding_all decide

/-- C6 (amended): validate_single_order returns False exactly when the
notional is below the configured minimum order value or the ABSOLUTE VALUE of
the hypothetical post-fill position value (current position value plus signed
order notional) divided by the per-symbol margin exceeds
max_leverage / n_symbols; and an order rejected by this check is never added
by generate_limit_orders to the symbol's active set or the order history. -/
theorem C6_validate_and_reject :
    (∀ (params : DefaultRiskParameters) (order : Order) (current_price : ℚ)
        (m : RiskMetrics) (n : ℕ),
        BasicRiskStrategy.validate_single_order params order current_price m n =
            false ↔
          (order.quantity * current_price < params.min_order_value_usd ∨
           |m.position_value +
              (if order.side = OrderSide.BUY then order.quantity * current_price
               else -(order.quantity * current_price))| / m.current_margin >
             params.max_leverage / n)) ∧
    (∀ (om : OrderManager) (t : ℤ) (symbol : String) (so : StrategyOutput)
        (cur maxp : ℚ) (m : RiskMetrics) (n : ℕ) (params : DefaultRiskParameters)
        (o : Order),
        BasicRiskStrategy.validate_single_order params o so.reservation_price m n =
          false →
        (o ∉ om.active_orders symbol →
          o ∉ ((om.generate_limit_orders t symbol so cur maxp m n
            params).2).active_orders symbol) ∧
        (o ∉ om.order_history →
          o ∉ ((om.generate_limit_orders t symbol so cur maxp m n
            params).2).order_history)) := by
  constructor
  · intro params order cp m n
    by_cases h1 : order.quantity * cp < params.min_order_value_usd
    · simp [BasicRiskStrategy.validate_single_order, h1]
    · cases hs : order.side with
      | BUY =>
        by_cases h2 : |m.position_value + order.quantity * cp| / m.current_margin >
            params.max_leverage / n <;>
          simp [BasicRiskStrategy.validate_single_order, h1, hs, h2]
      | SELL =>
        by_cases h2 : |m.position_value + -(order.quantity * cp)| / m.current_margin >
            params.max_leverage / n <;>
          simp [BasicRiskStrategy.validate_single_order, h1, hs, h2, sub_eq_add_neg]
  · intro om t symbol so cur maxp m n params o hval
    obtain ⟨added, hact, hhist, hv⟩ :=
      generate_limit_orders_appends om t symbol so cur maxp m n params
    constructor
    · intro hnot hmem
      rw [hact] at hmem
      rcases List.mem_append.mp hmem with h | h
      · exact hnot h
      · have hvo := hv o h
        rw [hval] at hvo
        exact Bool.false_ne_true hvo
    · intro hnot hmem
      rw [hhist] at hmem
      rcases List.mem_append.mp hmem with h | h
      · exact hnot h
      · have hvo := hv o h
        rw [hval] at hvo
        exact Bool.false_ne_true hvo

/-- Witness for C6 (amended): the iff at the counterexample's inputs, and the
rejected SELL order does not enter the active set of an empty manager. -/
theorem C6_witness :
    (BasicRiskStrategy.validate_single_order pC6 oC6 60 mC6 1 = false ↔
      (oC6.quantity * 60 < pC6.min_order_value_usd ∨
       |mC6.position_value +
          (if oC6.side = OrderSide.BUY then oC6.quantity * 60
           else -(oC6.quantity * 60))| / mC6.current_margin >
         pC6.max_leverage / ((1 : ℕ) : ℚ))) ∧
    oC6 ∉ ((omW6.generate_limit_orders 0 "X" soW6 0 0 mC6 1 pC6).2).active_orders
      "X" := by
  refine ⟨C6_validate_and_reject.1 pC6 oC6 60 mC6 1, ?_⟩
  exact (C6_validate_and_reject.2 omW6 0 "X" soW6 0 0 mC6 1 pC6 oC6
    (by with_unfolding_all decide)).1 (by decide)

/-- The force-close step flattens the symbol's position (or leaves the state
untouched when the position is already flat), preserves the entry-iff-open
invariant there, and does not touch other symbols' positions. -/
lemma closePositionIfOpen_spec (om : OrderManager) (sym : String) (t : ℤ) (price : ℚ)
    (reason : String) (hinv : position_inv (om.positions sym)) :
    ∃ om', closePositionIfOpen om sym t price reason = some om' ∧
      (om'.positions sym).current_quantity = 0 ∧
      position_inv (om'.positions sym) ∧
      ∀ s, s ≠ sym → om'.positions s = om.positions s := by
  by_cases hq : |(om.positions sym).current_quantity| > 0
  case neg =>
    have hq0 : (om.positions sym).current_quantity = 0 :=
      abs_eq_zero.mp (le_antisymm (not_lt.mp hq)
        (abs_nonneg (om.positions sym).current_quantity))
    refine ⟨om, ?_, hq0, hinv, fun s _ => rfl⟩
    unfold closePositionIfOpen
    rw [if_neg hq]
  case pos =>
    have hq0 : (om.positions sym).current_quantity ≠ 0 := abs_pos.mp hq
    obtain ⟨e, he⟩ : ∃ e, (om.positions sym).previous_entry_price = some e := by
      cases hpe : (om.positions sym).previous_entry_price with
      | none => exact absurd (hinv.mp hpe) hq0
      | some e => exact ⟨e, rfl⟩
    unfold closePositionIfOpen OrderManager.create_market_close_order
    rw [if_pos hq, if_pos hq]
    dsimp only
    rcases lt_or_gt_of_ne hq0 with hlt | hgt
    · rw [if_neg (lt_asymm hlt)]
      unfold OrderManager.execute_order
      dsimp only
      rw [if_pos rfl, if_neg (by decide : ¬ (OrderType.MARKET = OrderType.LIMIT))]
      have h0 : (om.positions sym).current_quantity +
          |(om.positions sym).current_quantity| = 0 := by
        rw [abs_of_neg hlt]; ring
      have h2 : (om.positions sym).current_quantity <
          (om.positions sym).current_quantity +
            |(om.positions sym).current_quantity| :=
        lt_add_of_pos_right _ hq
      rw [epc_short_less (om.positions sym) price _ _ _ om.taker_fee e he hlt h2
        (le_of_eq h0)]
      dsimp only
      refine ⟨_, rfl, ?_, ?_, ?_⟩
      · simpa [updMap] using h0
      · simp [updMap, position_inv, h0]
      · intro s hs
        simp [updMap, hs]
    · rw [if_pos hgt]
      unfold OrderManager.execute_order
      dsimp only
      rw [if_neg (by decide : ¬ (OrderSide.SELL = OrderSide.BUY)),
        if_neg (by decide : ¬ (OrderType.MARKET = OrderType.LIMIT))]
      have h0 : (om.positions sym).current_quantity +
          -|(om.positions sym).current_quantity| = 0 := by
        rw [abs_of_pos hgt]; ring
      have h2 : (om.positions sym).current_quantity +
          -|(om.positions sym).current_quantity| <
            (om.positions sym).current_quantity := by
        have := hq
        linarith
      rw [epc_long_less (om.positions sym) price _ _ _ om.taker_fee e he hgt h2
        (le_of_eq h0.symm)]
      dsimp only
      refine ⟨_, rfl, ?_, ?_, ?_⟩
      · simpa [updMap] using h0
      · simp [updMap, position_inv, h0]
      · intro s hs
        simp [updMap, hs]

/-- Folding the force-close step over a symbol list (the `'Total'` branch of
_process_emergency_exits) succeeds and flattens every listed symbol; every
position is either untouched or left flat with the invariant intact. -/
lemma processTotal_spec (t : ℤ) (opening : String → ℚ) :
    ∀ (symbols : List String) (om : OrderManager),
    (∀ s ∈ symbols, position_inv (om.positions s)) →
    ∃ om',
      symbols.foldl (fun acc sym => acc.bind fun om'' =>
        closePositionIfOpen om'' sym t (opening sym)
          "Emergency exit - Risk limit exceeded") (some om) = some om' ∧
      (∀ s ∈ symbols, (om'.positions s).current_quantity = 0) ∧
      (∀ s, om'.positions s = om.positions s ∨
        ((om'.positions s).current_quantity = 0 ∧
          position_inv (om'.positions s))) := by
  intro symbols
  induction symbols with
  | nil =>
    intro om _
    exact ⟨om, rfl, by simp, fun s => Or.inl rfl⟩
  | cons sym rest ih =>
    intro om hinv
    obtain ⟨om1, hrun1, hq1, hinv1, hother1⟩ :=
      closePositionIfOpen_spec om sym t (opening sym)
        "Emergency exit - Risk limit exceeded" (hinv sym (List.mem_cons_self _ _))
    have hinvrest : ∀ s ∈ rest, position_inv (om1.positions s) := by
      intro s hs
      by_cases hssym : s = sym
      · subst hssym; exact hinv1
      · rw [hother1 s hssym]; exact hinv s (List.mem_cons_of_mem _ hs)
    obtain ⟨om', hrun, hq, hpres⟩ := ih om1 hinvrest
    refine ⟨om', ?_, ?_, ?_⟩
    · show List.foldl _
        (closePositionIfOpen om sym t (opening sym)
          "Emergency exit - Risk limit exceeded") rest = some om'
      rw [hrun1]
      exact hrun
    · intro s hs
      rcases List.mem_cons.mp hs with rfl | hs'
      · rcases hpres s with heq | ⟨hq0, -⟩
        · rw [heq]; exact hq1
        · exact hq0
      · exact hq s hs'
    · intro s
      rcases hpres s with heq | hflat
      · by_cases hssym : s = sym
        · subst hssym
          refine Or.inr ⟨?_, ?_⟩
          · rw [heq]; exact hq1
          · rw [heq]; exact hinv1
        · exact Or.inl (by rw [heq, hother1 s hssym])
      · exact Or.inr hflat

/-- Folding the flag-guarded force-close step over the per-symbol flag list
(the non-total branch of _process_emergency_exits) succeeds, flattens every
flagged symbol, and leaves symbols with no true flag untouched. -/
lemma processFlag_spec (t : ℤ) (opening : String → ℚ) :
    ∀ (pairs : List (String × Bool)) (om : OrderManager),
    (∀ p ∈ pairs, position_inv (om.positions p.1)) →
    ∃ om',
      pairs.foldl (fun acc p => acc.bind fun om'' =>
        if p.2 then
          closePositionIfOpen om'' p.1 t (opening p.1)
            "Emergency exit - Risk limit exceeded"
        else some om'') (some om) = some om' ∧
      (∀ p ∈ pairs, p.2 = true → (om'.positions p.1).current_quantity = 0) ∧
      (∀ s, (∀ p ∈ pairs, p.1 = s → p.2 = false) →
        om'.positions s = om.positions s) ∧
      (∀ s, om'.positions s = om.positions s ∨
        ((om'.positions s).current_quantity = 0 ∧
          position_inv (om'.positions s))) := by
  intro pairs
  induction pairs with
  | nil =>
    intro om _
    exact ⟨om, rfl, by simp, fun s _ => rfl, fun s => Or.inl rfl⟩
  | cons head rest ih =>
    obtain ⟨name, flag⟩ := head
    intro om hinv
    cases flag with
    | false =>
      obtain ⟨om', hrun, hq, hunch, hpres⟩ :=
        ih om (fun p hp => hinv p (List.mem_cons_of_mem _ hp))
      refine ⟨om', ?_, ?_, ?_, hpres⟩
      · show List.foldl _ (some om) rest = some om'
        exact hrun
      · intro p hp hp2
        rcases List.mem_cons.mp hp with rfl | hp'
        · exact absurd hp2 (by simp)
        · exact hq p hp' hp2
      · intro s hall
        exact hunch s (fun p hp => hall p (List.mem_cons_of_mem _ hp))
    | true =>
      obtain ⟨om1, hrun1, hq1, hinv1, hother1⟩ :=
        closePositionIfOpen_spec om name t (opening name)
          "Emergency exit - Risk limit exceeded"
          (hinv (name, true) (List.mem_cons_self _ _))
      have hinvrest : ∀ p ∈ rest, position_inv (om1.positions p.1) := by
        intro p hp
        by_cases hpn : p.1 = name
        · rw [hpn]; exact hinv1
        · rw [hother1 p.1 hpn]; exact hinv p (List.mem_cons_of_mem _ hp)
      obtain ⟨om', hrun, hq, hunch, hpres⟩ := ih om1 hinvrest
      refine ⟨om', ?_, ?_, ?_, ?_⟩
      · show List.foldl _
          (closePositionIfOpen om name t (opening name)
            "Emergency exit - Risk limit exceeded") rest = some om'
        rw [hrun1]
        exact hrun
      · intro p hp hp2
        rcases List.mem_cons.mp hp with rfl | hp'
        · show (om'.positions name).current_quantity = 0
          rcases hpres name with heq | ⟨hq0, -⟩
          · rw [heq]; exact hq1
          · exact hq0
        · exact hq p hp' hp2
      · intro s hall
        by_cases hsn : name = s
        · exact absurd (hall (name, true) (List.mem_cons_self _ _) hsn) (by simp)
        · rw [hunch s (fun p hp => hall p (List.mem_cons_of_mem _ hp)),
            hother1 s (fun h => hsn h.symm)]
      · intro s
        rcases hpres s with heq | hflat
        · by_cases hsn : s = name
          · subst hsn
            refine Or.inr ⟨?_, ?_⟩
            · rw [heq]; exact hq1
            · rw [heq]; exact hinv1
          · exact Or.inl (by rw [heq, hother1 s hsn])
        · exact Or.inr hflat

/-- Counterexample to C7: with summed signed leverage exactly equal to
max_leverage = 1 the code raises the Total flag (it compares with ≥), although
the sum does not strictly exceed max_leverage as the claim states. -/
theorem C7_counterexample :
    (BasicRiskStrategy.check_emergency_exit pC7 mC7 1).total = true ∧
    ¬ (|((mC7.map fun p => p.2.current_leverage).sum)| > pC7.max_leverage) := by
  with_unfolding_all decide

/-- C7 (amended): the per-symbol flag is set exactly when
|leverage| ≥ emergency_exit_leverage / n_symbols, the Total flag exactly when
the absolute summed signed leverage is AT OR ABOVE max_leverage (≥, not
strict); when Total is set the engine closes every open position regardless of
per-symbol flags, and when it is not set exactly the flagged symbols are
flattened while symbols with no raised flag keep their position untouched. -/
theorem C7_emergency_exit_rules :
    (∀ (params : DefaultRiskParameters) (metrics : List (String × RiskMetrics))
        (n : ℕ),
        ((BasicRiskStrategy.check_emergency_exit params metrics n).total = true ↔
          |(metrics.map fun p => p.2.current_leverage).sum| ≥ params.max_leverage) ∧
        (BasicRiskStrategy.check_emergency_exit params metrics n).per_symbol =
          metrics.map fun p =>
            (p.1, decide (|p.2.current_leverage| ≥
              params.emergency_exit_leverage / n))) ∧
    (∀ (om : OrderManager) (symbols : List String) (t : ℤ) (exits : EmergencyExits)
        (opening : String → ℚ),
        exits.total = true →
        (∀ s ∈ symbols, position_inv (om.positions s)) →
        ∃ om', processEmergencyExits om symbols t exits opening = some om' ∧
          ∀ s ∈ symbols, (om'.positions s).current_quantity = 0) ∧
    (∀ (om : OrderManager) (symbols : List String) (t : ℤ) (exits : EmergencyExits)
        (opening : String → ℚ),
        exits.total = false →
        (∀ p ∈ exits.per_symbol, position_inv (om.positions p.1)) →
        ∃ om', processEmergencyExits om symbols t exits opening = some om' ∧
          (∀ p ∈ exits.per_symbol, p.2 = true →
            (om'.positions p.1).current_quantity = 0) ∧
          (∀ s, (∀ p ∈ exits.per_symbol, p.1 = s → p.2 = false) →
            om'.positions s = om.positions s)) := by
  refine ⟨?_, ?_, ?_⟩
  · intro params metrics n
    constructor
    · simp [BasicRiskStrategy.check_emergency_exit]
    · rfl
  · intro om symbols t exits opening htot hinv
    unfold processEmergencyExits
    rw [if_pos htot]
    obtain ⟨om', hrun, hq, -⟩ := processTotal_spec t opening symbols om hinv
    exact ⟨om', hrun, hq⟩
  · intro om symbols t exits opening htot hinv
    unfold processEmergencyExits
    rw [if_neg (by simp [htot])]
    obtain ⟨om', hrun, hq, hunch, -⟩ := processFlag_spec t opening exits.per_symbol om hinv
    exact ⟨om', hrun, hq, hunch⟩

/-- Witness for C7 (amended): the Total-flag iff at the boundary metrics, and
a Total-flag liquidation flattening a concrete long position of 2 units. -/
theorem C7_witness :
    ((BasicRiskStrategy.check_emergency_exit pC7 mC7 1).total = true ↔
      |((mC7.map fun p => p.2.current_leverage).sum)| ≥ pC7.max_leverage) ∧
    ((processEmergencyExits omW7 ["X"] 0 exitsW7 (fun _ => 100)).map
        (fun om' => (om'.positions "X").current_quantity)) = some 0 := by
  refine ⟨(C7_emergency_exit_rules.1 pC7 mC7 1).1, ?_⟩
  obtain ⟨om', hrun, hq⟩ := C7_emergency_exit_rules.2.1 omW7 ["X"] 0 exitsW7
    (fun _ => 100) rfl (by decide)
  rw [hrun]
  simp [hq "X" (List.mem_cons_self _ _)]

/-- C1 evaluated at a failing input: a 2-timestamp run with one symbol that
hits the margin stop at timestamp 0 (early_stopping_margin = 1, margin ratio
1 ≤ 1).  The claim says all eight history series end with length N = 2; in
fact only wallet, margin, per-symbol leverage, reservation price and realized
PnL are padded to 2, while spread_history and global_leverage_history are left
at length 0 (the padding helper never extends them) and price_history ends at
length 4 = 2N − k (it is pre-filled with the full series at run start and then
padded again). -/
theorem C1_early_stop_history_lengths :
    (runSimulation C1cfg C1inp).map (fun r =>
      (r.wallet_balance_history.length, r.margin_history.length,
       (r.leverage_history "X").length, (r.reservation_price_history "X").length,
       (r.realized_pnl_history "X").length, (r.spread_history "X").length,
       r.global_leverage_history.length, (r.price_history "X").length)) =
      some (2, 2, 2, 2, 2, 0, 0, 4) := by
  with_unfolding_all rfl

end MMS
